import Mathlib

/-!
# Powerup weight tables (`src/items/powerup_manager.cpp`)

A shallow embedding of the weighted item distribution of `PowerupManager`:
the cumulative-weight construction (`postProcessWeightData`), the
`WeightsData` constructor, the sampling routine
`WeightsData::getRandomItem` and the bucket selection of
`PowerupManager::getRandomPowerup`.

Conventions of the embedding.

* `uint64_t` values are natural numbers; additions that can wrap are
  written with an explicit `% 2 ^ 64`.
* `float` distances are rational numbers: every finite `float` is a
  rational and the comparison `>=` of finite floats is the rational order.
* A `std::vector` is a `List`; an iterator into it is an index, `end()`
  being the length.
* Undefined behaviour and failed assertions are explicit faults in the
  `Except` monad.
-/

deriving instance DecidableEq for Except

namespace PowerupManager

/-- The enumeration `PowerupType`; the order is the one fixed by the table
`powerup_names` of `getPowerupType`. `POWERUP_FIRST` is `POWERUP_BUBBLEGUM`
and `POWERUP_LAST` is `POWERUP_ANCHOR`. -/
inductive PowerupType where
  | POWERUP_NOTHING
  | POWERUP_BUBBLEGUM
  | POWERUP_CAKE
  | POWERUP_BOWLING
  | POWERUP_ZIPPER
  | POWERUP_PLUNGER
  | POWERUP_SWITCH
  | POWERUP_SWATTER
  | POWERUP_RUBBERBALL
  | POWERUP_PARACHUTE
  | POWERUP_ANCHOR
  deriving DecidableEq, Repr, Inhabited

open PowerupType

/-- Numeric value of `POWERUP_FIRST`. -/
def POWERUP_FIRST : Nat := 1

/-- Numeric value of `POWERUP_LAST`. -/
def POWERUP_LAST : Nat := 10

/-- The constant `EXPECTED_NUM_POWERUPS = 2 * POWERUP_LAST`. -/
def EXPECTED_NUM_POWERUPS : Nat := 2 * POWERUP_LAST

/-- The ways in which the C++ code leaves defined behaviour or aborts. -/
inductive Fault where
  /-- `max_res->getWeight()` with `max_res == m_weights.end()` in the
  `WeightsData` constructor (the vector is empty). -/
  | maxElementOfEmpty
  /-- `random_number % m_cfd` with `m_cfd == 0` in `getRandomItem`. -/
  | moduloByZero
  /-- `assert(powerup_it != m_weights.end())` in `getRandomItem`. -/
  | noItemFound
  /-- `assert(weight_data_it != m_current_item_weights.rend())` in
  `getRandomPowerup`. -/
  | noBucketFound
  /-- The conversion `float` to `uint64_t` in `postProcessWeightData` of a
  value whose truncation is not a `uint64_t`. -/
  | distanceOutOfRange
  /-- The node of the class is missing in `loadWeights`: `Log::fatal`, and the
  null pointer `node` is used afterwards. -/
  | missingNode
  /-- An `item` node with an unknown name in `loadPowerupsModels`:
  `Log::fatal` and `exit(-1)`. -/
  | unknownItem
  /-- The `default` case of the `switch` in `selectWeightsForCurMode`:
  `Log::fatal`, "Invalid minor mode - aborting." (spec 6: an unrecognized mode
  is a fatal error). -/
  | invalidMinorMode
  deriving DecidableEq, Repr

/-- The class `WeightedPowerup` (declared in `powerup_manager.hpp`):
a weight, a pickup count and an item kind, in the order of the constructor
arguments used by `emplace_back(weight, count, type)`. -/
structure WeightedPowerup where
  m_weight : Nat
  m_count : Nat
  m_type : PowerupType
  deriving DecidableEq, Repr, Inhabited

namespace WeightedPowerup

/-- Accessor `getWeight`. -/
def getWeight (p : WeightedPowerup) : Nat := p.m_weight

/-- Accessor `getType`. -/
def getType (p : WeightedPowerup) : PowerupType := p.m_type

/-- Accessor `getCount`. -/
def getCount (p : WeightedPowerup) : Nat := p.m_count

/-- Modelled from the spec: `WeightedPowerup::merge` is declared in the header
`powerup_manager.hpp`, which is not part of the sources. Spec 4.2 step 3: the
cumulative weight of an entry is its own raw weight plus the cumulative weight
of the previous surviving entry, kind and count are preserved. The weight is
a `uint64_t`, so the addition wraps at `2 ^ 64`. -/
def merge (p other : WeightedPowerup) : WeightedPowerup :=
  { m_weight := (p.m_weight + other.m_weight) % 2 ^ 64
    m_count := p.m_count
    m_type := p.m_type }

/-- Modelled from the spec: `operator<` of `WeightedPowerup` (used by
`std::max_element` in the constructor of `WeightsData`) is declared in the
missing header. Spec 4.2 step 4: the total is the maximum of the cumulative
weights, so entries are ordered by weight. -/
def lt (p other : WeightedPowerup) : Bool := decide (p.m_weight < other.m_weight)

end WeightedPowerup

/-- The algorithm `std::max_element(first, last)`: the iterator to the first
greatest element, `end()` (here `none`) for an empty range. -/
def max_element : List WeightedPowerup → Option WeightedPowerup
  | [] => none
  | x :: xs => some (xs.foldl (fun largest y => if largest.lt y then y else largest) x)

/-- The class `WeightsData`: a distance threshold, the weighted entries and
the total `m_cfd`. -/
structure WeightsData where
  m_distance : ℚ
  m_weights : List WeightedPowerup
  m_cfd : Nat
  deriving DecidableEq, Repr

namespace WeightsData

/-- Accessor `getDistance`. -/
def getDistance (d : WeightsData) : ℚ := d.m_distance

/-- Accessor `getPowerupWeights`. -/
def getPowerupWeights (d : WeightsData) : List WeightedPowerup := d.m_weights

/-- The constructor `WeightsData::WeightsData(distance, weights)` (named `new`
here, the type itself being `WeightsData`): `m_cfd` is
the weight of `std::max_element` of the entries. With no entry the iterator
is `end()` and dereferencing it is undefined. -/
def new (distance : ℚ) (weights : List WeightedPowerup) :
    Except Fault WeightsData :=
  match max_element weights with
  | none => .error Fault.maxElementOfEmpty
  | some max_res => .ok { m_distance := distance, m_weights := weights, m_cfd := max_res.getWeight }

end WeightsData

/-- The loop of `std::lower_bound` (halving of the remaining length `len`
from the iterator `first`), with the comparator of `getRandomItem`,
`powerup.getWeight() < val`. The first argument bounds the number of
iterations; `lower_bound` starts it at the length, which the loop never
exhausts since `len` shrinks at every step. -/
def lower_bound_loop (ws : List WeightedPowerup) (val : Nat) : Nat → Nat → Nat → Nat
  | 0, first, _ => first
  | n + 1, first, len =>
    if len = 0 then first
    else
      let half := len / 2
      let middle := first + half
      match ws[middle]? with
      | none => first
      | some powerup =>
        if powerup.getWeight < val then
          lower_bound_loop ws val n (middle + 1) (len - half - 1)
        else
          lower_bound_loop ws val n first half

/-- The call `std::lower_bound(m_weights.begin(), m_weights.end(), val, comp)`
as the index of the returned iterator. -/
def lower_bound (ws : List WeightedPowerup) (val : Nat) : Nat :=
  lower_bound_loop ws val ws.length 0 ws.length

namespace WeightsData

/-- The method `WeightsData::getRandomItem(random_number)`. -/
def getRandomItem (d : WeightsData) (random_number : Nat) : Except Fault WeightedPowerup :=
  if d.m_cfd = 0 then .error Fault.moduloByZero
  else
    let random_number := random_number % d.m_cfd
    let powerup_it := lower_bound d.m_weights random_number
    match d.m_weights[powerup_it]? with
    | none => .error Fault.noItemFound
    | some powerup => .ok powerup

end WeightsData

/-- The cast `static_cast<PowerupType>(val)` for the values of the
enumeration. -/
def PowerupType.ofValue : Nat → PowerupType
  | 1 => POWERUP_BUBBLEGUM
  | 2 => POWERUP_CAKE
  | 3 => POWERUP_BOWLING
  | 4 => POWERUP_ZIPPER
  | 5 => POWERUP_PLUNGER
  | 6 => POWERUP_SWITCH
  | 7 => POWERUP_SWATTER
  | 8 => POWERUP_RUBBERBALL
  | 9 => POWERUP_PARACHUTE
  | 10 => POWERUP_ANCHOR
  | _ => POWERUP_NOTHING

/-- The function `convertToPowerupType`. -/
def convertToPowerupType (val : Nat) : PowerupType :=
  if POWERUP_FIRST ≤ val ∧ val ≤ POWERUP_LAST then PowerupType.ofValue val
  else POWERUP_NOTHING

/-- The two functions of `utils/string_utils.hpp` used by `readWeightRow`;
the file is not part of the sources, so they are parameters of the
embedding: `split` cuts a string at a separator and `fromString` reads an
`int` from a token. -/
structure StringUtils where
  split : String → Char → List String
  fromString : String → Int

/-- The range of the type `int` (32 bits, two's complement): an integer in
`[-2 ^ 31, 2 ^ 31)` is kept, any other one is brought into that range. -/
def toInt32 (v : Int) : Int := (v + 2 ^ 31) % 2 ^ 32 - 2 ^ 31

/-- The value of the local variable `int weight` of `readWeightRow` after the
call `StringUtils::fromString(str, weight)`: the variable has 32 bits, so it
holds the integer which `fromString` gives for the token, in the range of
`int`. The variable is not initialised; for a token from which no `int` is
read the value of the parameter stands for what the variable holds then. -/
def StringUtils.readWeight (su : StringUtils) (str : String) : Int :=
  toInt32 (su.fromString str)

/-- The loop of `readWeightRow` over the tokens, `i` being the running
index: the list of the calls `op(type, weight)` it makes. -/
def readWeightRow_loop (su : StringUtils) : List String → Nat → List (PowerupType × Int)
  | [], _ => []
  | str :: rest, i =>
    if str.isEmpty then readWeightRow_loop su rest i
    else (convertToPowerupType i, su.readWeight str) :: readWeightRow_loop su rest (i + 1)

/-- The function `readWeightRow(items, op)`, as the list of the calls of
`op`. -/
def readWeightRow (su : StringUtils) (items : String) : List (PowerupType × Int) :=
  readWeightRow_loop su (su.split items ' ') POWERUP_FIRST

/-- The conversion of an `int` argument to the `uint64_t` parameter of the
callbacks of `loadPowerupWeights`. -/
def toUInt64 (w : Int) : Nat := (w % 2 ^ 64).toNat

/-- Modelled from the spec: `Log::fatal` is declared in `utils/log.hpp`, which
is not part of the sources. Spec 4.1 and 7: a row of the wrong length is
reported and `loadPowerupWeights` goes on (it pads or keeps the entries). These
are the two messages it can report. -/
inductive LogMessage where
  | notEnoughEntries
  | tooManyEntries
  deriving DecidableEq, Repr

/-- The function `loadPowerupWeights(node)`, given the attributes `single`
and `multi` of the node: the entries and the message reported, if any. -/
def loadPowerupWeights (su : StringUtils) (single_item multi_item : String) :
    List WeightedPowerup × Option LogMessage :=
  let weighted_powerups :=
    (readWeightRow su single_item).map (fun c => WeightedPowerup.mk (toUInt64 c.2) 1 c.1)
      ++ (readWeightRow su multi_item).map (fun c => WeightedPowerup.mk (toUInt64 c.2) 3 c.1)
  if weighted_powerups.length < EXPECTED_NUM_POWERUPS then
    (weighted_powerups ++ List.replicate (EXPECTED_NUM_POWERUPS - weighted_powerups.length)
        (WeightedPowerup.mk 0 0 POWERUP_NOTHING),
      some LogMessage.notEnoughEntries)
  else if weighted_powerups.length > EXPECTED_NUM_POWERUPS then
    (weighted_powerups, some LogMessage.tooManyEntries)
  else (weighted_powerups, none)

/-- The function `loadPowerupWeightNode(node)`, given the attributes
`distance`, `single` and `multi` of the node. -/
def loadPowerupWeightNode (su : StringUtils) (distance : ℚ) (single_item multi_item : String) :
    Except Fault WeightsData :=
  WeightsData.new distance (loadPowerupWeights su single_item multi_item).1

/-- The body of the inner loop of `postProcessWeightData` for one entry:
`new_weights` after `weighted_powerup` has been looked at. -/
def postProcess_step (new_weights : List WeightedPowerup) (weighted_powerup : WeightedPowerup) :
    List WeightedPowerup :=
  if weighted_powerup.getWeight < 1 then new_weights
  else if weighted_powerup.getType = POWERUP_NOTHING then new_weights
  else
    match new_weights.getLast? with
    | none => new_weights ++ [weighted_powerup]
    | some back => new_weights ++ [weighted_powerup.merge back]

/-- The inner loop of `postProcessWeightData`: the vector `new_weights`
built from the entries of one raw bucket. -/
def postProcess_weights (weights : List WeightedPowerup) : List WeightedPowerup :=
  weights.foldl postProcess_step []

/-- The initialisation `const uint64_t new_distance = weight_data.getDistance()`:
a `float` converts to an unsigned integer by truncation, and the conversion is
undefined when the truncated value is not a `uint64_t`. -/
def floatToUInt64 (d : ℚ) : Except Fault Nat :=
  let t := Int.tdiv d.num d.den
  if 0 ≤ t ∧ t < 2 ^ 64 then .ok t.toNat else .error Fault.distanceOutOfRange

/-- The function `postProcessWeightData(raw_data, processed_data)`: the
value of `processed_data` on return. The integer `new_distance` converts back
to the `float` parameter of the constructor; this is exact, the integer part
of a `float` being a `float`. -/
def postProcessWeightData : List WeightsData → List WeightsData → Except Fault (List WeightsData)
  | [], processed_data => .ok processed_data
  | weight_data :: rest, processed_data =>
    match floatToUInt64 weight_data.getDistance with
    | .error e => .error e
    | .ok new_distance =>
      match WeightsData.new (new_distance : ℚ) (postProcess_weights weight_data.getPowerupWeights) with
      | .error e => .error e
      | .ok built => postProcessWeightData rest (processed_data ++ [built])

/-- The function `PowerupManager::getRandomPowerup(distance, random_number)`,
given the member `m_current_item_weights`: `std::find_if` over the reversed
table, then `getRandomItem` on the bucket found. -/
def getRandomPowerup (m_current_item_weights : List WeightsData) (distance : ℚ)
    (random_number : Nat) : Except Fault WeightedPowerup :=
  match m_current_item_weights.reverse.find? (fun data => decide (distance ≥ data.getDistance)) with
  | none => .error Fault.noBucketFound
  | some weight_data => weight_data.getRandomItem random_number

/-- Modelled from the spec: `StringUtils::split` and `StringUtils::fromString`
are missing from the sources; spec 4.1: a row splits at blanks and each token
is an integer. This is the cutting of a list of characters at `c`. -/
def splitChars (c : Char) : List Char → List Char → List (List Char)
  | cur, [] => if cur.isEmpty then [] else [cur.reverse]
  | cur, x :: xs => if x = c then cur.reverse :: splitChars c [] xs else splitChars c (x :: cur) xs

/-- Modelled from the spec: the decimal value of a list of digits (see
`splitChars`). -/
def digitsValue : List Char → Nat → Nat
  | [], acc => acc
  | x :: xs, acc => digitsValue xs (10 * acc + (x.toNat - 48))

/-- Modelled from the spec: a decimal integer with an optional minus sign
(see `splitChars`). -/
def parseInt (s : String) : Int :=
  match s.data with
  | '-' :: ds => - (digitsValue ds 0 : Int)
  | ds => (digitsValue ds 0 : Int)

/-- Modelled from the spec: an instance of the string functions (see
`splitChars`). -/
def stringUtils : StringUtils :=
  { split := fun s c => (splitChars c [] s.data).map String.mk
    fromString := parseInt }

/-- The test an entry passes to be kept by `postProcessWeightData`: weight at
least 1 and a kind other than `POWERUP_NOTHING`. -/
def survives (e : WeightedPowerup) : Bool :=
  decide (1 ≤ e.m_weight ∧ e.m_type ≠ POWERUP_NOTHING)

/-- The entries of a raw bucket that pass the two tests of
`postProcessWeightData`, in their order. -/
def survivors (raw : List WeightedPowerup) : List WeightedPowerup :=
  raw.filter survives

/-- The sum of the weights of a sequence of entries, as a natural number
(no wrapping). -/
def weightSum (l : List WeightedPowerup) : Nat :=
  (l.map WeightedPowerup.m_weight).sum

/-- The entries pushed after `back`: each one merged with its predecessor. -/
def mergeFrom (back : WeightedPowerup) : List WeightedPowerup → List WeightedPowerup
  | [] => []
  | e :: es => e.merge back :: mergeFrom (e.merge back) es

/-- The surviving entries after merging: the first one as it is, each later
one merged with its predecessor. -/
def mergeAll : List WeightedPowerup → List WeightedPowerup
  | [] => []
  | e :: es => e :: mergeFrom e es

/-- The raw entries read from the rows `single="10 0 5 0 0 0 0 0 0 0"` and
`multi="0 0 0 0 0 0 0 0 0 0"`: the example of the specification (weights 10,
0 and 5 for the first three kinds) in the catalogue of ten kinds. -/
def sampleRawEntries : List WeightedPowerup :=
  (loadPowerupWeights stringUtils "10 0 5 0 0 0 0 0 0 0" "0 0 0 0 0 0 0 0 0 0").1

/-- The bucket built from `sampleRawEntries`: cumulative weights 10 and 15,
total 15. -/
def sampleBucket : WeightsData :=
  { m_distance := 0
    m_weights := [⟨10, 1, POWERUP_BUBBLEGUM⟩, ⟨15, 1, POWERUP_BOWLING⟩]
    m_cfd := 15 }

/-- Raw entries whose weights do not fit together in a `uint64_t`: the rows
`single="-1 2 0 0 0 0 0 0 0 0"` and `multi="0 0 0 0 0 0 0 0 0 0"`, the token
`-1` being the weight `2 ^ 64 - 1`. -/
def wrappingRawEntries : List WeightedPowerup :=
  (loadPowerupWeights stringUtils "-1 2 0 0 0 0 0 0 0 0" "0 0 0 0 0 0 0 0 0 0").1

/-- Raw entries none of which survives the filter: the rows
`single="0 0 0 0 0 0 0 0 0 0"` and `multi="0 0 0 0 0 0 0 0 0 0"`. -/
def allZeroRawEntries : List WeightedPowerup :=
  (loadPowerupWeights stringUtils "0 0 0 0 0 0 0 0 0 0" "0 0 0 0 0 0 0 0 0 0").1

/-- A table of three buckets with the thresholds 0, 10 and 20. -/
def sampleTable : List WeightsData :=
  [ { m_distance := 0, m_weights := [⟨4, 1, POWERUP_BUBBLEGUM⟩], m_cfd := 4 },
    { m_distance := 10, m_weights := [⟨6, 1, POWERUP_CAKE⟩], m_cfd := 6 },
    { m_distance := 20, m_weights := [⟨8, 3, POWERUP_ZIPPER⟩], m_cfd := 8 } ]

/-- Raw entries read from rows that are too short, `single="10 0 5"` and
`multi="0 0 0"`: six entries from the rows and fourteen padding entries. -/
def paddedRawEntries : List WeightedPowerup :=
  (loadPowerupWeights stringUtils "10 0 5" "0 0 0").1

/-- The non-empty tokens of a row, in their order: the strings for which the
loop of `readWeightRow` calls `op`. -/
def nonEmptyTokens (su : StringUtils) (items : String) : List String :=
  (su.split items ' ').filter (fun str => !str.isEmpty)

/-- The entries which a call `readWeightRow(items, op)` of `loadPowerupWeights`
appends, `op` being `weighted_powerups.emplace_back(weight, count, type)`
with `count` 1 for the row `single` and 3 for the row `multi`. -/
def weightRowEntries (su : StringUtils) (items : String) (count : Nat) : List WeightedPowerup :=
  (readWeightRow su items).map (fun c => WeightedPowerup.mk (toUInt64 c.2) count c.1)

/-- The table `powerup_names` of `getPowerupType`. -/
def powerup_names : List String :=
  [ "", "bubblegum", "cake", "bowling", "zipper", "plunger", "switch",
    "swatter", "rubber-ball", "parachute", "anchor" ]

/-- The loop of `getPowerupType` over the indices still to be looked at. -/
def getPowerupType_loop (name : String) : List Nat → PowerupType
  | [] => POWERUP_NOTHING
  | i :: rest =>
    if powerup_names.getD i "" = name then PowerupType.ofValue i
    else getPowerupType_loop name rest

/-- The function `PowerupManager::getPowerupType(name)`: the loop runs over
`POWERUP_FIRST .. POWERUP_LAST`. -/
def getPowerupType (name : String) : PowerupType :=
  getPowerupType_loop name (List.range' POWERUP_FIRST (POWERUP_LAST + 1 - POWERUP_FIRST))

/-- The name of a kind in the table `powerup_names`. -/
def PowerupType.name : PowerupType → String
  | POWERUP_NOTHING => ""
  | POWERUP_BUBBLEGUM => "bubblegum"
  | POWERUP_CAKE => "cake"
  | POWERUP_BOWLING => "bowling"
  | POWERUP_ZIPPER => "zipper"
  | POWERUP_PLUNGER => "plunger"
  | POWERUP_SWITCH => "switch"
  | POWERUP_SWATTER => "swatter"
  | POWERUP_RUBBERBALL => "rubber-ball"
  | POWERUP_PARACHUTE => "parachute"
  | POWERUP_ANCHOR => "anchor"

/-- Modelled from the spec: the class `XMLNode` of `io/xml_node.hpp` is not
part of the sources (spec 1: reading the configuration is an external
collaborator). This is a node with the weights of one distance bucket: its
attributes `distance`, `single` and `multi`. -/
structure WeightNode where
  distance : ℚ
  single : String
  multi : String
  deriving DecidableEq, Repr

/-- Modelled from the spec: a child of the top node of `powerup.xml` (see
`WeightNode`): its name (`getName()`), its attribute `name` (empty when
absent) and its own children, read as weight nodes. -/
structure XMLChild where
  name : String
  attr_name : String
  weights : List WeightNode
  deriving DecidableEq, Repr

/-- Modelled from the spec: the top node of `powerup.xml` (see `WeightNode`),
as the list of its children. -/
structure XMLNode where
  children : List XMLChild
  deriving DecidableEq, Repr

/-- The call `powerup_node->getNode(class_name)`: the first child with that
name, `none` for the null pointer. -/
def XMLNode.getNode (powerup_node : XMLNode) (class_name : String) : Option XMLChild :=
  powerup_node.children.find? (fun c => decide (c.name = class_name))

/-- The loop of `loadWeights` that fills `raw_data`: one call of
`loadPowerupWeightNode` per child of the node. -/
def loadRawData (su : StringUtils) : List WeightNode → Except Fault (List WeightsData)
  | [] => .ok []
  | weights :: rest =>
    match loadPowerupWeightNode su weights.distance weights.single weights.multi with
    | .error e => .error e
    | .ok raw =>
      match loadRawData su rest with
      | .error e => .error e
      | .ok raw_data => .ok (raw :: raw_data)

/-- The method `PowerupManager::loadWeights(powerup_node, class_name)`, given
the member `m_all_weights` (a map from class names to tables, an absent key
being the empty table that `operator[]` creates): the value of `m_all_weights`
on return. -/
def loadWeights (su : StringUtils) (powerup_node : XMLNode) (class_name : String)
    (m_all_weights : String → List WeightsData) : Except Fault (String → List WeightsData) :=
  match powerup_node.getNode class_name with
  | none => .error Fault.missingNode
  | some node =>
    match loadRawData su node.weights with
    | .error e => .error e
    | .ok raw_data =>
      match postProcessWeightData raw_data (m_all_weights class_name) with
      | .error e => .error e
      | .ok processed_data =>
        .ok (fun key => if key = class_name then processed_data else m_all_weights key)

/-- The first loop of `loadPowerupsModels`, over the children of the top node:
a child called `item` with a name that `getPowerupType` does not know ends the
program. Loading the icon and the model of an item (`loadPowerup`) is left
out. -/
def loadPowerupsModels_items : List XMLChild → Except Fault Unit
  | [] => .ok ()
  | node :: rest =>
    if node.name ≠ "item" then loadPowerupsModels_items rest
    else if getPowerupType node.attr_name ≠ POWERUP_NOTHING then loadPowerupsModels_items rest
    else .error Fault.unknownItem

/-- The method `PowerupManager::loadPowerupsModels()`, given the top node of
`powerup.xml` and the member `m_all_weights`: the value of `m_all_weights` on
return. The call for `ftl-weight-list` is commented out in the source. -/
def loadPowerupsModels (su : StringUtils) (root : XMLNode)
    (m_all_weights : String → List WeightsData) : Except Fault (String → List WeightsData) :=
  match loadPowerupsModels_items root.children with
  | .error e => .error e
  | .ok _ =>
    match loadWeights su root "race-weight-list" m_all_weights with
    | .error e => .error e
    | .ok w1 =>
      match loadWeights su root "battle-weight-list" w1 with
      | .error e => .error e
      | .ok w2 =>
        match loadWeights su root "soccer-weight-list" w2 with
        | .error e => .error e
        | .ok w3 => loadWeights su root "tutorial-weight-list" w3

/-- The values of `RaceManager::getMinorMode()` named in the `switch` of
`selectWeightsForCurMode`, and `MINOR_MODE_OTHER` for every other value (the
enumeration is declared in `race/race_manager.hpp`, not part of the
sources). -/
inductive MinorRaceModeType where
  | MINOR_MODE_TIME_TRIAL
  | MINOR_MODE_NORMAL_RACE
  | MINOR_MODE_FOLLOW_LEADER
  | MINOR_MODE_3_STRIKES
  | MINOR_MODE_FREE_FOR_ALL
  | MINOR_MODE_CAPTURE_THE_FLAG
  | MINOR_MODE_TUTORIAL
  | MINOR_MODE_EASTER_EGG
  | MINOR_MODE_OVERWORLD
  | MINOR_MODE_CUTSCENE
  | MINOR_MODE_SOCCER
  | MINOR_MODE_OTHER
  deriving DecidableEq, Repr

open MinorRaceModeType

/-- The `switch` of `selectWeightsForCurMode`: the value of `class_name`
after it, `none` in the `default` case. -/
def selectWeights_class_name : MinorRaceModeType → Option String
  | MINOR_MODE_TIME_TRIAL => some "race"
  | MINOR_MODE_NORMAL_RACE => some "race"
  | MINOR_MODE_FOLLOW_LEADER => some "ftl"
  | MINOR_MODE_3_STRIKES => some "battle"
  | MINOR_MODE_FREE_FOR_ALL => some "battle"
  | MINOR_MODE_CAPTURE_THE_FLAG => some "battle"
  | MINOR_MODE_TUTORIAL => some "tutorial"
  | MINOR_MODE_EASTER_EGG => some "soccer"
  | MINOR_MODE_OVERWORLD => some "soccer"
  | MINOR_MODE_CUTSCENE => some "soccer"
  | MINOR_MODE_SOCCER => some "soccer"
  | MINOR_MODE_OTHER => none

/-- The method `PowerupManager::selectWeightsForCurMode()`, given the minor
mode and the member `m_all_weights`: the value of `m_current_item_weights` on
return. -/
def selectWeightsForCurMode (mode : MinorRaceModeType)
    (m_all_weights : String → List WeightsData) : Except Fault (List WeightsData) :=
  match selectWeights_class_name mode with
  | none => .error Fault.invalidMinorMode
  | some class_name => .ok (m_all_weights (class_name ++ "-weight-list"))

/-- The member `m_all_weights` of a new `PowerupManager`: an empty map. -/
def emptyWeights : String → List WeightsData := fun _ => []

/-- Raw entries read from a row of twelve tokens and a row of eight tokens:
twenty entries, so that `loadPowerupWeights` reports nothing. -/
def unevenRawEntries : List WeightedPowerup × Option LogMessage :=
  loadPowerupWeights stringUtils "1 1 1 1 1 1 1 1 1 1 1 1" "1 1 1 1 1 1 1 1"

/-- Two raw buckets with the thresholds 0 and 1/2, each with the entries of
the example rows. -/
def closeRawBuckets : List WeightsData :=
  [ { m_distance := 0, m_weights := sampleRawEntries, m_cfd := 10 },
    { m_distance := mkRat 1 2, m_weights := paddedRawEntries, m_cfd := 10 } ]

/-- A configuration whose class `race-weight-list` has two buckets, with the
thresholds 0 and 1/2. -/
def closeConfig : XMLNode :=
  { children :=
      [ { name := "race-weight-list", attr_name := "",
          weights :=
            [ { distance := 0, single := "10 0 5 0 0 0 0 0 0 0",
                multi := "0 0 0 0 0 0 0 0 0 0" },
              { distance := mkRat 1 2, single := "10 0 5", multi := "0 0 0" } ] } ] }

/-- A configuration with two items and the four classes which
`loadPowerupsModels` reads, each with one bucket of threshold 0. -/
def sampleConfig : XMLNode :=
  { children :=
      [ { name := "item", attr_name := "bubblegum", weights := [] },
        { name := "item", attr_name := "bowling", weights := [] },
        { name := "race-weight-list", attr_name := "",
          weights := [ { distance := 0, single := "10 0 5 0 0 0 0 0 0 0",
                         multi := "0 0 0 0 0 0 0 0 0 0" } ] },
        { name := "battle-weight-list", attr_name := "",
          weights := [ { distance := 0, single := "10 0 5", multi := "0 0 0" } ] },
        { name := "soccer-weight-list", attr_name := "",
          weights := [ { distance := 0, single := "10 0 5", multi := "0 0 0" } ] },
        { name := "tutorial-weight-list", attr_name := "",
          weights := [ { distance := 0, single := "10 0 5", multi := "0 0 0" } ] } ] }

/-- The value of `m_all_weights` after `loadPowerupsModels` on `sampleConfig`
from the empty map. -/
def sampleLoaded : String → List WeightsData :=
  fun key =>
    if key = "tutorial-weight-list" then [sampleBucket]
    else if key = "soccer-weight-list" then [sampleBucket]
    else if key = "battle-weight-list" then [sampleBucket]
    else if key = "race-weight-list" then [sampleBucket]
    else []

/-- A configuration whose class `race-weight-list` has no bucket. -/
def emptyClassConfig : XMLNode :=
  { children := [ { name := "race-weight-list", attr_name := "", weights := [] } ] }

/-! ## Auxiliary facts -/

theorem lower_bound_loop_spec (ws : List WeightedPowerup) (val : Nat)
    (hmono : ∀ (i j : Nat) (hj : j < ws.length), i ≤ j →
      ∀ hi : i < ws.length, (ws.get ⟨i, hi⟩).m_weight ≤ (ws.get ⟨j, hj⟩).m_weight) :
    ∀ (n first len : Nat), len ≤ n → first + len ≤ ws.length →
      (∀ (i : Nat) (hi : i < ws.length), i < first → (ws.get ⟨i, hi⟩).m_weight < val) →
      (∀ (i : Nat) (hi : i < ws.length), first + len ≤ i → val ≤ (ws.get ⟨i, hi⟩).m_weight) →
      lower_bound_loop ws val n first len ≤ ws.length ∧
      (∀ (i : Nat) (hi : i < ws.length), i < lower_bound_loop ws val n first len →
        (ws.get ⟨i, hi⟩).m_weight < val) ∧
      (∀ (i : Nat) (hi : i < ws.length), lower_bound_loop ws val n first len ≤ i →
        val ≤ (ws.get ⟨i, hi⟩).m_weight) := by
  intro n
  induction n with
  | zero =>
    intro first len hn hlen hlo hhi
    have hl : len = 0 := Nat.le_zero.mp hn
    subst hl
    simp only [lower_bound_loop]
    exact ⟨by omega, hlo, fun i hi h => hhi i hi (by omega)⟩
  | succ n ih =>
    intro first len hn hlen hlo hhi
    by_cases hl : len = 0
    · subst hl
      simp only [lower_bound_loop, if_true]
      exact ⟨by omega, hlo, fun i hi h => hhi i hi (by omega)⟩
    · have hmid : first + len / 2 < ws.length := by
        have : len / 2 < len := Nat.div_lt_self (Nat.pos_of_ne_zero hl) (by decide)
        omega
      have hget : ws[first + len / 2]? = some (ws.get ⟨first + len / 2, hmid⟩) := by
        simp [List.getElem?_eq_getElem hmid]
      simp only [lower_bound_loop, hl, if_false, hget, WeightedPowerup.getWeight]
      by_cases hc : (ws.get ⟨first + len / 2, hmid⟩).m_weight < val
      · simp only [hc, if_true]
        apply ih
        · omega
        · omega
        · intro i hi hlt
          have hle : i ≤ first + len / 2 := by omega
          exact lt_of_le_of_lt (hmono i (first + len / 2) hmid hle hi) hc
        · intro i hi hge
          exact hhi i hi (by omega)
      · simp only [hc, if_false]
        apply ih
        · omega
        · omega
        · exact hlo
        · intro i hi hge
          have hle : val ≤ (ws.get ⟨first + len / 2, hmid⟩).m_weight := Nat.le_of_not_lt hc
          exact le_trans hle (hmono (first + len / 2) i hi hge hmid)

theorem mono_of_pairwise_lt (ws : List WeightedPowerup)
    (hasc : List.Pairwise (fun p q => p.m_weight < q.m_weight) ws) :
    ∀ (i j : Nat) (hj : j < ws.length), i ≤ j →
      ∀ hi : i < ws.length, (ws.get ⟨i, hi⟩).m_weight ≤ (ws.get ⟨j, hj⟩).m_weight := by
  intro i j hj hij hi
  rcases Nat.eq_or_lt_of_le hij with h | h
  · subst h
    exact le_rfl
  · exact le_of_lt (List.pairwise_iff_get.mp hasc ⟨i, hi⟩ ⟨j, hj⟩ h)

theorem lower_bound_spec (ws : List WeightedPowerup) (val : Nat)
    (hmono : ∀ (i j : Nat) (hj : j < ws.length), i ≤ j →
      ∀ hi : i < ws.length, (ws.get ⟨i, hi⟩).m_weight ≤ (ws.get ⟨j, hj⟩).m_weight) :
    lower_bound ws val ≤ ws.length ∧
    (∀ (i : Nat) (hi : i < ws.length), i < lower_bound ws val → (ws.get ⟨i, hi⟩).m_weight < val) ∧
    (∀ (i : Nat) (hi : i < ws.length), lower_bound ws val ≤ i → val ≤ (ws.get ⟨i, hi⟩).m_weight) := by
  unfold lower_bound
  apply lower_bound_loop_spec ws val hmono ws.length 0 ws.length le_rfl (by omega)
  · intro i _ h
    exact absurd h (Nat.not_lt_zero i)
  · intro i hi h
    omega

theorem max_fold_spec (xs : List WeightedPowerup) :
    ∀ x : WeightedPowerup,
      (xs.foldl (fun largest y => if largest.lt y then y else largest) x) ∈ x :: xs ∧
      ∀ e ∈ x :: xs,
        e.m_weight ≤ (xs.foldl (fun largest y => if largest.lt y then y else largest) x).m_weight := by
  induction xs with
  | nil =>
    intro x
    simp
  | cons y ys ih =>
    intro x
    simp only [List.foldl_cons]
    by_cases hc : x.lt y = true
    · rw [if_pos hc]
      obtain ⟨hm, hle⟩ := ih y
      refine ⟨List.mem_cons_of_mem _ hm, ?_⟩
      intro e he
      rcases List.mem_cons.mp he with h | h
      · subst h
        have hxy : e.m_weight < y.m_weight := by simpa [WeightedPowerup.lt] using hc
        exact le_trans (le_of_lt hxy) (hle y (List.mem_cons_self _ _))
      · exact hle e h
    · rw [if_neg hc]
      obtain ⟨hm, hle⟩ := ih x
      refine ⟨?_, ?_⟩
      · rcases List.mem_cons.mp hm with h | h
        · rw [h]
          exact List.mem_cons_self _ _
        · exact List.mem_cons_of_mem _ (List.mem_cons_of_mem _ h)
      · intro e he
        rcases List.mem_cons.mp he with h | h
        · subst h
          exact hle e (List.mem_cons_self _ _)
        · rcases List.mem_cons.mp h with h2 | h2
          · subst h2
            have hxy : ¬ x.m_weight < e.m_weight := by simpa [WeightedPowerup.lt] using hc
            exact le_trans (Nat.le_of_not_lt hxy) (hle x (List.mem_cons_self _ _))
          · exact hle e (List.mem_cons_of_mem _ h2)

theorem max_element_spec (ws : List WeightedPowerup) (m : WeightedPowerup)
    (h : max_element ws = some m) : m ∈ ws ∧ ∀ e ∈ ws, e.m_weight ≤ m.m_weight := by
  cases ws with
  | nil => simp [max_element] at h
  | cons x xs =>
    simp only [max_element, Option.some.injEq] at h
    subst h
    exact max_fold_spec xs x

theorem new_ok_iff (distance : ℚ) (weights : List WeightedPowerup) (b : WeightsData)
    (h : WeightsData.new distance weights = .ok b) :
    b.m_distance = distance ∧ b.m_weights = weights ∧
      ∃ m, max_element weights = some m ∧ b.m_cfd = m.m_weight := by
  unfold WeightsData.new at h
  split at h
  · exact absurd h (by simp)
  · rename_i m hm
    simp only [Except.ok.injEq] at h
    subst h
    exact ⟨rfl, rfl, m, hm, rfl⟩

theorem survivors_cons (e : WeightedPowerup) (es : List WeightedPowerup) :
    survivors (e :: es) = if survives e = true then e :: survivors es else survivors es := by
  unfold survivors
  rw [List.filter_cons]

theorem postProcess_step_survivor (acc : List WeightedPowerup) (e : WeightedPowerup) :
    postProcess_step acc e =
      if survives e = true then
        (match acc.getLast? with
          | none => acc ++ [e]
          | some back => acc ++ [e.merge back])
      else acc := by
  unfold postProcess_step WeightedPowerup.getWeight WeightedPowerup.getType survives
  by_cases h1 : e.m_weight < 1
  · have : ¬ 1 ≤ e.m_weight := by omega
    simp [h1, this]
  · have h1' : 1 ≤ e.m_weight := by omega
    by_cases h2 : e.m_type = POWERUP_NOTHING
    · simp [h1, h2]
    · simp [h1, h2, h1']

theorem foldl_step_back (raw : List WeightedPowerup) :
    ∀ (acc : List WeightedPowerup) (back : WeightedPowerup), acc.getLast? = some back →
      raw.foldl postProcess_step acc = acc ++ mergeFrom back (survivors raw) := by
  induction raw with
  | nil =>
    intro acc back _
    simp [survivors, mergeFrom]
  | cons e es ih =>
    intro acc back hback
    simp only [List.foldl_cons]
    rw [postProcess_step_survivor, survivors_cons]
    by_cases hs : survives e = true
    · rw [if_pos hs, if_pos hs, hback]
      have hlast : (acc ++ [e.merge back]).getLast? = some (e.merge back) := by simp
      rw [ih (acc ++ [e.merge back]) (e.merge back) hlast]
      simp [mergeFrom]
    · rw [if_neg hs, if_neg hs, ih acc back hback]

theorem postProcess_weights_eq (raw : List WeightedPowerup) :
    postProcess_weights raw = mergeAll (survivors raw) := by
  unfold postProcess_weights
  induction raw with
  | nil => simp [survivors, mergeAll]
  | cons e es ih =>
    simp only [List.foldl_cons]
    rw [postProcess_step_survivor, survivors_cons]
    by_cases hs : survives e = true
    · rw [if_pos hs, if_pos hs]
      have hlast : ([] ++ [e] : List WeightedPowerup).getLast? = some e := by simp
      simp only [List.getLast?_nil]
      rw [foldl_step_back es ([] ++ [e]) e hlast]
      simp [mergeAll]
    · rw [if_neg hs, if_neg hs, ih]

theorem weightSum_cons (e : WeightedPowerup) (es : List WeightedPowerup) :
    weightSum (e :: es) = e.m_weight + weightSum es := by
  simp [weightSum]

theorem mergeFrom_length (l : List WeightedPowerup) :
    ∀ back : WeightedPowerup, (mergeFrom back l).length = l.length := by
  induction l with
  | nil => intro back; rfl
  | cons x xs ih => intro back; simp [mergeFrom, ih]

theorem mergeAll_length (l : List WeightedPowerup) : (mergeAll l).length = l.length := by
  cases l with
  | nil => rfl
  | cons x xs => simp [mergeAll, mergeFrom_length]

theorem mergeFrom_getElem? (l : List WeightedPowerup) :
    ∀ (back : WeightedPowerup) (k : Nat) (e : WeightedPowerup), l[k]? = some e →
      (mergeFrom back l)[k]? =
        some ⟨(back.m_weight + weightSum (l.take (k + 1))) % 2 ^ 64, e.m_count, e.m_type⟩ := by
  induction l with
  | nil => intro back k e h; simp at h
  | cons x xs ih =>
    intro back k e h
    cases k with
    | zero =>
      simp only [List.getElem?_cons_zero, Option.some.injEq] at h
      subst h
      simp [mergeFrom, WeightedPowerup.merge, weightSum, Nat.add_comm]
    | succ k =>
      simp only [List.getElem?_cons_succ] at h
      simp only [mergeFrom, List.getElem?_cons_succ, List.take_succ_cons, weightSum_cons]
      rw [ih (x.merge back) k e h]
      simp only [WeightedPowerup.merge, Option.some.injEq, WeightedPowerup.mk.injEq, and_true]
      omega

theorem mergeAll_getElem? (l : List WeightedPowerup) (hbound : ∀ x ∈ l, x.m_weight < 2 ^ 64)
    (k : Nat) (e : WeightedPowerup) (h : l[k]? = some e) :
    (mergeAll l)[k]? =
      some ⟨weightSum (l.take (k + 1)) % 2 ^ 64, e.m_count, e.m_type⟩ := by
  cases l with
  | nil => simp at h
  | cons x xs =>
    cases k with
    | zero =>
      simp only [List.getElem?_cons_zero, Option.some.injEq] at h
      subst h
      have hx : x.m_weight < 2 ^ 64 := hbound x (List.mem_cons_self _ _)
      have hmod : x.m_weight % 2 ^ 64 = x.m_weight := Nat.mod_eq_of_lt hx
      simp only [mergeAll, weightSum, List.getElem?_cons_zero, List.take_succ_cons, List.take_zero,
        List.map_cons, List.map_nil, List.sum_cons, List.sum_nil, Nat.add_zero, hmod]
    | succ k =>
      simp only [List.getElem?_cons_succ] at h
      simp only [mergeAll, List.getElem?_cons_succ, List.take_succ_cons, weightSum_cons]
      rw [mergeFrom_getElem? xs x k e h]

theorem mergeFrom_pairwise (l : List WeightedPowerup) :
    ∀ back : WeightedPowerup, (∀ e ∈ l, 1 ≤ e.m_weight) →
      back.m_weight + weightSum l < 2 ^ 64 →
      List.Pairwise (fun p q => p.m_weight < q.m_weight) (mergeFrom back l) ∧
      (∀ q ∈ mergeFrom back l, back.m_weight < q.m_weight) ∧
      (∀ q, (mergeFrom back l).getLast? = some q → q.m_weight = back.m_weight + weightSum l) := by
  induction l with
  | nil =>
    intro back _ _
    simp [mergeFrom]
  | cons x xs ih =>
    intro back hpos hsum
    rw [weightSum_cons] at hsum
    have hx : 1 ≤ x.m_weight := hpos x (List.mem_cons_self _ _)
    have hm : (x.merge back).m_weight = back.m_weight + x.m_weight := by
      simp only [WeightedPowerup.merge]
      omega
    obtain ⟨hpw, hlow, hlast⟩ := ih (x.merge back)
      (fun e he => hpos e (List.mem_cons_of_mem _ he)) (by rw [hm]; omega)
    refine ⟨?_, ?_, ?_⟩
    · simp only [mergeFrom, List.pairwise_cons]
      exact ⟨hlow, hpw⟩
    · intro q hq
      simp only [mergeFrom, List.mem_cons] at hq
      rcases hq with h | h
      · rw [h, hm]
        omega
      · have := hlow q h
        rw [hm] at this
        omega
    · intro q hq
      rw [weightSum_cons]
      cases hxs : mergeFrom (x.merge back) xs with
      | nil =>
        have hnil : xs = [] := by
          have := mergeFrom_length xs (x.merge back)
          rw [hxs] at this
          exact List.length_eq_zero.mp this.symm
        subst hnil
        simp only [mergeFrom, List.getLast?_singleton, Option.some.injEq] at hq
        rw [← hq, hm]
        simp [weightSum]
      | cons y ys =>
        have hq' : (mergeFrom (x.merge back) xs).getLast? = some q := by
          simp only [mergeFrom] at hq
          rw [hxs] at hq ⊢
          simpa [List.getLast?_cons_cons] using hq
        rw [hlast q hq', hm]
        omega

theorem survives_iff (e : WeightedPowerup) :
    survives e = true ↔ 1 ≤ e.m_weight ∧ e.m_type ≠ POWERUP_NOTHING := by
  simp [survives]

theorem mem_survivors (raw : List WeightedPowerup) (e : WeightedPowerup) :
    e ∈ survivors raw ↔ e ∈ raw ∧ 1 ≤ e.m_weight ∧ e.m_type ≠ POWERUP_NOTHING := by
  unfold survivors
  rw [List.mem_filter, survives_iff]

theorem weightSum_survivors_le (raw : List WeightedPowerup) :
    weightSum (survivors raw) ≤ weightSum raw := by
  induction raw with
  | nil => simp [survivors]
  | cons e es ih =>
    rw [survivors_cons, weightSum_cons]
    by_cases hs : survives e = true
    · rw [if_pos hs, weightSum_cons]
      omega
    · rw [if_neg hs]
      omega

theorem mergeAll_pairwise (l : List WeightedPowerup) (hpos : ∀ e ∈ l, 1 ≤ e.m_weight)
    (hsum : weightSum l < 2 ^ 64) :
    List.Pairwise (fun p q => p.m_weight < q.m_weight) (mergeAll l) ∧
    (∀ q, (mergeAll l).getLast? = some q → q.m_weight = weightSum l) := by
  cases l with
  | nil => simp [mergeAll]
  | cons x xs =>
    rw [weightSum_cons] at hsum
    obtain ⟨hpw, hlow, hlast⟩ := mergeFrom_pairwise xs x
      (fun e he => hpos e (List.mem_cons_of_mem _ he)) hsum
    refine ⟨?_, ?_⟩
    · simp only [mergeAll, List.pairwise_cons]
      exact ⟨hlow, hpw⟩
    · intro q hq
      rw [weightSum_cons]
      cases hxs : mergeFrom x xs with
      | nil =>
        have hnil : xs = [] := by
          have := mergeFrom_length xs x
          rw [hxs] at this
          exact List.length_eq_zero.mp this.symm
        subst hnil
        simp only [mergeAll, mergeFrom, List.getLast?_singleton, Option.some.injEq] at hq
        rw [← hq]
        simp [weightSum]
      | cons y ys =>
        have hq' : (mergeFrom x xs).getLast? = some q := by
          simp only [mergeAll] at hq
          rw [hxs] at hq ⊢
          simpa [List.getLast?_cons_cons] using hq
        exact hlast q hq'

theorem max_eq_last_of_pairwise (ws : List WeightedPowerup) (m last : WeightedPowerup)
    (hasc : List.Pairwise (fun p q => p.m_weight < q.m_weight) ws)
    (hm : max_element ws = some m) (hlast : ws.getLast? = some last) :
    m.m_weight = last.m_weight := by
  obtain ⟨hmem, hge⟩ := max_element_spec ws m hm
  have hlmem : last ∈ ws := List.mem_of_getLast?_eq_some hlast
  apply le_antisymm _ (hge last hlmem)
  obtain ⟨i, hi⟩ := List.mem_iff_get.mp hmem
  have hpos : 0 < ws.length := List.length_pos_of_mem hmem
  have hl : ws.length - 1 < ws.length := by omega
  have hlast' : ws.get ⟨ws.length - 1, hl⟩ = last := by
    rw [List.getLast?_eq_getElem?, List.getElem?_eq_getElem hl] at hlast
    simpa using hlast
  rw [← hi, ← hlast']
  exact mono_of_pairwise_lt ws hasc i.1 (ws.length - 1) hl (by have := i.2; omega) i.2

theorem postProcess_single (raw b : WeightsData)
    (h : postProcessWeightData [raw] [] = .ok [b]) :
    (∃ n : Nat, floatToUInt64 raw.m_distance = .ok n ∧ b.m_distance = (n : ℚ)) ∧
    b.m_weights = mergeAll (survivors raw.m_weights) ∧
    ∃ m, max_element b.m_weights = some m ∧ b.m_cfd = m.m_weight := by
  simp only [postProcessWeightData, WeightsData.getDistance, WeightsData.getPowerupWeights] at h
  split at h
  · exact absurd h (by simp)
  · rename_i n hn
    split at h
    · exact absurd h (by simp)
    · rename_i built hbuilt
      simp only [List.nil_append, Except.ok.injEq, List.cons.injEq, and_true] at h
      subst h
      obtain ⟨hd, hw, m, hm, hcfd⟩ := new_ok_iff _ _ _ hbuilt
      rw [postProcess_weights_eq] at hw
      refine ⟨⟨n, hn, hd⟩, hw, m, ?_, hcfd⟩
      rw [hw, ← postProcess_weights_eq]
      exact hm

theorem postProcess_single_builds (raw : WeightsData) (n : Nat)
    (hd : floatToUInt64 raw.m_distance = .ok n) (hs : survivors raw.m_weights ≠ []) :
    ∃ b : WeightsData, postProcessWeightData [raw] [] = .ok [b] ∧ b.m_distance = (n : ℚ) ∧
      b.m_weights = mergeAll (survivors raw.m_weights) := by
  obtain ⟨x, xs, hx⟩ := List.exists_cons_of_ne_nil hs
  have hmax : ∃ m, max_element (mergeAll (survivors raw.m_weights)) = some m := by
    rw [hx]
    exact ⟨_, rfl⟩
  obtain ⟨m, hm⟩ := hmax
  refine ⟨⟨(n : ℚ), mergeAll (survivors raw.m_weights), m.getWeight⟩, ?_, rfl, rfl⟩
  simp only [postProcessWeightData, WeightsData.getDistance, WeightsData.getPowerupWeights, hd,
    postProcess_weights_eq, WeightsData.new, hm, List.nil_append]

/-! ## Sampling inside a bucket -/

/-- C1: for a bucket made by the constructor (which needs a non-empty
sequence) from entries with strictly ascending weights and with total
`m_cfd > 0`, `getRandomItem`
returns, for every random value, the earliest entry whose weight is at least
`randomValue % m_cfd` (entry `k` has weight at least the reduced value and
every entry before it has a smaller weight); in particular the result for
`randomValue` is the result for `randomValue % m_cfd`. -/
theorem getRandomItem_lower_bound (distance : ℚ) (weights : List WeightedPowerup)
    (b : WeightsData) (randomValue : Nat)
    (hb : WeightsData.new distance weights = .ok b)
    (hasc : List.Pairwise (fun p q => p.m_weight < q.m_weight) weights)
    (htotal : 0 < b.m_cfd) :
    (∃ (k : Nat) (hk : k < b.m_weights.length),
        b.getRandomItem randomValue = .ok (b.m_weights.get ⟨k, hk⟩) ∧
        randomValue % b.m_cfd ≤ (b.m_weights.get ⟨k, hk⟩).m_weight ∧
        ∀ (j : Nat) (hj : j < b.m_weights.length), j < k →
          (b.m_weights.get ⟨j, hj⟩).m_weight < randomValue % b.m_cfd) ∧
    b.getRandomItem randomValue = b.getRandomItem (randomValue % b.m_cfd) := by
  obtain ⟨_, hw, m, hm, hcfd⟩ := new_ok_iff distance weights b hb
  have hasc' : List.Pairwise (fun p q => p.m_weight < q.m_weight) b.m_weights := by
    rw [hw]
    exact hasc
  have hmem : m ∈ b.m_weights := by
    rw [hw]
    exact (max_element_spec weights m hm).1
  have hpos : b.m_cfd ≠ 0 := Nat.pos_iff_ne_zero.mp htotal
  have hr : randomValue % b.m_cfd < b.m_cfd := Nat.mod_lt _ htotal
  obtain ⟨hle, hlo, hhi⟩ :=
    lower_bound_spec b.m_weights (randomValue % b.m_cfd) (mono_of_pairwise_lt b.m_weights hasc')
  have hk : lower_bound b.m_weights (randomValue % b.m_cfd) < b.m_weights.length := by
    obtain ⟨i, hget⟩ := List.mem_iff_get.mp hmem
    by_contra hcon
    have hlt := hlo i.1 i.2 (by omega)
    rw [hget, ← hcfd] at hlt
    omega
  constructor
  · refine ⟨lower_bound b.m_weights (randomValue % b.m_cfd), hk, ?_, hhi _ hk le_rfl, ?_⟩
    · simp only [WeightsData.getRandomItem, hpos, if_false]
      rw [List.getElem?_eq_getElem hk]
      rfl
    · intro j hj hjk
      exact hlo j hj hjk
  · simp only [WeightsData.getRandomItem, hpos, if_false, Nat.mod_mod]

/-- Witness of C1: the bucket `[(10, bubblegum), (15, bowling)]` with total
15 and the random value 25. -/
theorem getRandomItem_lower_bound_witness :
    (∃ (k : Nat) (hk : k < 2),
        WeightsData.getRandomItem
            ⟨0, [⟨10, 1, POWERUP_BUBBLEGUM⟩, ⟨15, 1, POWERUP_BOWLING⟩], 15⟩ 25
          = .ok ([(⟨10, 1, POWERUP_BUBBLEGUM⟩ : WeightedPowerup),
              ⟨15, 1, POWERUP_BOWLING⟩].get ⟨k, hk⟩) ∧
        25 % 15 ≤ ([(⟨10, 1, POWERUP_BUBBLEGUM⟩ : WeightedPowerup),
              ⟨15, 1, POWERUP_BOWLING⟩].get ⟨k, hk⟩).m_weight ∧
        ∀ (j : Nat) (hj : j < 2), j < k →
          ([(⟨10, 1, POWERUP_BUBBLEGUM⟩ : WeightedPowerup),
              ⟨15, 1, POWERUP_BOWLING⟩].get ⟨j, hj⟩).m_weight < 25 % 15) ∧
    WeightsData.getRandomItem ⟨0, [⟨10, 1, POWERUP_BUBBLEGUM⟩, ⟨15, 1, POWERUP_BOWLING⟩], 15⟩ 25
      = WeightsData.getRandomItem
          ⟨0, [⟨10, 1, POWERUP_BUBBLEGUM⟩, ⟨15, 1, POWERUP_BOWLING⟩], 15⟩ (25 % 15) :=
  getRandomItem_lower_bound 0 [⟨10, 1, POWERUP_BUBBLEGUM⟩, ⟨15, 1, POWERUP_BOWLING⟩]
    ⟨0, [⟨10, 1, POWERUP_BUBBLEGUM⟩, ⟨15, 1, POWERUP_BOWLING⟩], 15⟩ 25
    (by decide) (by decide) (by decide)

/-- C2 (the code at the failing input): the bucket built from the example
rows has the entries `(10, bubblegum)` and `(15, bowling)` and total 15; the
value `r = 10` lies in the range `[10, 15)` of the second entry, and
`getRandomItem 10` returns the first entry. -/
theorem getRandomItem_at_boundary_returns_previous_entry :
    postProcessWeightData [⟨0, sampleRawEntries, 10⟩] [] = .ok [sampleBucket] ∧
    sampleBucket.getRandomItem 9 = .ok ⟨10, 1, POWERUP_BUBBLEGUM⟩ ∧
    sampleBucket.getRandomItem 10 = .ok ⟨10, 1, POWERUP_BUBBLEGUM⟩ ∧
    sampleBucket.getRandomItem 11 = .ok ⟨15, 1, POWERUP_BOWLING⟩ ∧
    sampleBucket.getRandomItem 14 = .ok ⟨15, 1, POWERUP_BOWLING⟩ := by
  decide

/-- C3 (the code at the failing input): over the 15 values `0 .. 14` the
bucket built from the raw weights 10 (bubblegum) and 5 (bowling) returns
bubblegum 11 times and bowling 4 times. -/
theorem getRandomItem_counts_differ_from_raw_weights :
    postProcessWeightData [⟨0, sampleRawEntries, 10⟩] [] = .ok [sampleBucket] ∧
    ((List.range 15).filter
      (fun r => decide (sampleBucket.getRandomItem r = .ok ⟨10, 1, POWERUP_BUBBLEGUM⟩))).length = 11 ∧
    ((List.range 15).filter
      (fun r => decide (sampleBucket.getRandomItem r = .ok ⟨15, 1, POWERUP_BOWLING⟩))).length = 4 := by
  decide

/-! ## Building a bucket -/

/-- C5, counterexample: from the raw weights `2 ^ 64 - 1` and `2` the second
built entry has weight 1, not the sum `2 ^ 64 + 1` of the raw weights of the
first two surviving entries. -/
theorem postProcess_weight_is_not_the_sum :
    ∃ b : WeightsData, postProcessWeightData [⟨0, wrappingRawEntries, 2 ^ 64 - 1⟩] [] = .ok [b] ∧
      ∃ e : WeightedPowerup, b.m_weights[1]? = some e ∧
        e.m_weight ≠ weightSum ((survivors wrappingRawEntries).take 2) :=
  ⟨⟨0, [⟨2 ^ 64 - 1, 1, POWERUP_BUBBLEGUM⟩, ⟨1, 1, POWERUP_CAKE⟩], 2 ^ 64 - 1⟩, by decide,
    ⟨1, 1, POWERUP_CAKE⟩, by decide, by decide⟩

/-- C5, amended: the entries of a built bucket are the raw entries with weight
at least 1 and a kind other than `POWERUP_NOTHING`, in their order; the entry
at position `k` keeps the kind and the count of the `k`-th surviving raw entry
and its weight is the sum of the raw weights of the surviving entries up to
that one, reduced modulo `2 ^ 64` (raw weights being 64-bit values). -/
theorem postProcess_entries (raw b : WeightsData)
    (hbuilt : postProcessWeightData [raw] [] = .ok [b])
    (hbound : ∀ e ∈ raw.m_weights, e.m_weight < 2 ^ 64) :
    b.m_weights.length = (survivors raw.m_weights).length ∧
    ∀ (k : Nat) (e : WeightedPowerup), (survivors raw.m_weights)[k]? = some e →
      b.m_weights[k]? =
        some ⟨weightSum ((survivors raw.m_weights).take (k + 1)) % 2 ^ 64, e.m_count, e.m_type⟩ := by
  obtain ⟨_, hw, _⟩ := postProcess_single raw b hbuilt
  rw [hw]
  refine ⟨mergeAll_length _, ?_⟩
  intro k e hk
  exact mergeAll_getElem? _ (fun x hx => hbound x ((mem_survivors _ _).mp hx).1) k e hk

/-- Witness of the amended C5: the bucket built from the example rows. -/
theorem postProcess_entries_witness :
    sampleBucket.m_weights.length = (survivors sampleRawEntries).length ∧
    ∀ (k : Nat) (e : WeightedPowerup), (survivors sampleRawEntries)[k]? = some e →
      sampleBucket.m_weights[k]? =
        some ⟨weightSum ((survivors sampleRawEntries).take (k + 1)) % 2 ^ 64, e.m_count, e.m_type⟩ :=
  postProcess_entries ⟨0, sampleRawEntries, 10⟩ sampleBucket (by decide) (by decide)

/-- C6: when the weights of the raw entries sum to less than `2 ^ 64`, the
weights of the entries of the built bucket are strictly increasing along the
sequence. -/
theorem postProcess_weights_strictly_increasing (raw b : WeightsData)
    (hbuilt : postProcessWeightData [raw] [] = .ok [b])
    (hsum : weightSum raw.m_weights < 2 ^ 64) :
    List.Pairwise (fun p q => p.m_weight < q.m_weight) b.m_weights := by
  obtain ⟨_, hw, _⟩ := postProcess_single raw b hbuilt
  rw [hw]
  refine (mergeAll_pairwise _ (fun e he => ((mem_survivors _ _).mp he).2.1) ?_).1
  exact lt_of_le_of_lt (weightSum_survivors_le _) hsum

/-- Witness of C6: the bucket built from the example rows. -/
theorem postProcess_weights_strictly_increasing_witness :
    List.Pairwise (fun p q => p.m_weight < q.m_weight) sampleBucket.m_weights :=
  postProcess_weights_strictly_increasing ⟨0, sampleRawEntries, 10⟩ sampleBucket
    (by decide) (by decide)

/-- C7, counterexample: from the raw weights `2 ^ 64 - 1` and `2` the built
bucket has total `2 ^ 64 - 1`, its last entry has weight 1 and the raw
weights of the surviving entries sum to `2 ^ 64 + 1`. -/
theorem total_is_not_the_last_weight :
    ∃ b : WeightsData, postProcessWeightData [⟨0, wrappingRawEntries, 2 ^ 64 - 1⟩] [] = .ok [b] ∧
      ∃ last : WeightedPowerup, b.m_weights.getLast? = some last ∧
        b.m_cfd ≠ last.m_weight ∧ b.m_cfd ≠ weightSum (survivors wrappingRawEntries) :=
  ⟨⟨0, [⟨2 ^ 64 - 1, 1, POWERUP_BUBBLEGUM⟩, ⟨1, 1, POWERUP_CAKE⟩], 2 ^ 64 - 1⟩, by decide,
    ⟨1, 1, POWERUP_CAKE⟩, by decide, by decide, by decide⟩

/-- C7, amended: for a built bucket (which has at least one surviving entry)
whose surviving raw weights sum to less than `2 ^ 64`, the total `m_cfd` is
the weight of the last entry and is the sum of the raw weights of the
surviving entries. -/
theorem total_is_last_weight (raw b : WeightsData)
    (hbuilt : postProcessWeightData [raw] [] = .ok [b])
    (hsum : weightSum (survivors raw.m_weights) < 2 ^ 64) :
    ∃ last : WeightedPowerup, b.m_weights.getLast? = some last ∧
      b.m_cfd = last.m_weight ∧ b.m_cfd = weightSum (survivors raw.m_weights) := by
  obtain ⟨_, hw, m, hm, hcfd⟩ := postProcess_single raw b hbuilt
  obtain ⟨hpw, hlast⟩ :=
    mergeAll_pairwise (survivors raw.m_weights) (fun e he => ((mem_survivors _ _).mp he).2.1) hsum
  rw [← hw] at hpw hlast
  have hmem : m ∈ b.m_weights := (max_element_spec _ m hm).1
  have hne : b.m_weights ≠ [] := List.ne_nil_of_mem hmem
  refine ⟨b.m_weights.getLast hne, List.getLast?_eq_getLast _ hne, ?_, ?_⟩
  · rw [hcfd]
    exact max_eq_last_of_pairwise _ _ _ hpw hm (List.getLast?_eq_getLast _ hne)
  · rw [hcfd, max_eq_last_of_pairwise _ _ _ hpw hm (List.getLast?_eq_getLast _ hne)]
    exact hlast _ (List.getLast?_eq_getLast _ hne)

/-- Witness of the amended C7: the bucket built from the example rows. -/
theorem total_is_last_weight_witness :
    ∃ last : WeightedPowerup, sampleBucket.m_weights.getLast? = some last ∧
      sampleBucket.m_cfd = last.m_weight ∧
      sampleBucket.m_cfd = weightSum (survivors sampleRawEntries) :=
  total_is_last_weight ⟨0, sampleRawEntries, 10⟩ sampleBucket (by decide) (by decide)

/-! ## Selecting the bucket -/

theorem getRandomItem_ne_noBucketFound (b : WeightsData) (r : Nat) :
    b.getRandomItem r ≠ .error Fault.noBucketFound := by
  unfold WeightsData.getRandomItem
  split
  · simp
  · dsimp only
    split <;> simp

theorem find_last_qualifying (table : List WeightsData) (distance : ℚ) (sel : WeightsData)
    (h : table.reverse.find? (fun data => decide (distance ≥ data.getDistance)) = some sel) :
    sel.m_distance ≤ distance ∧
    ∃ pre post, table = pre ++ sel :: post ∧ ∀ x ∈ post, ¬ x.m_distance ≤ distance := by
  obtain ⟨hp, as, bs, hsplit, hno⟩ := List.find?_eq_some.mp h
  refine ⟨by simpa [WeightsData.getDistance] using hp, bs.reverse, as.reverse, ?_, ?_⟩
  · have := congrArg List.reverse hsplit
    simpa using this
  · intro x hx
    have := hno x (List.mem_reverse.mp hx)
    simpa [WeightsData.getDistance] using this

/-- C4: when some bucket of the active table has a threshold at most
`distance`, `getRandomPowerup` samples from the last bucket in table order
whose threshold is at most `distance` (no later bucket qualifies; the test is
inclusive); when the thresholds are in ascending order this bucket has the
greatest threshold among the qualifying ones. -/
theorem getRandomPowerup_selects_bucket (table : List WeightsData) (distance : ℚ) (r : Nat)
    (hex : ∃ b ∈ table, b.m_distance ≤ distance) :
    ∃ (pre : List WeightsData) (sel : WeightsData) (post : List WeightsData),
      table = pre ++ sel :: post ∧
      sel.m_distance ≤ distance ∧
      (∀ x ∈ post, ¬ x.m_distance ≤ distance) ∧
      getRandomPowerup table distance r = sel.getRandomItem r ∧
      (List.Pairwise (fun x y => x.m_distance ≤ y.m_distance) table →
        ∀ x ∈ table, x.m_distance ≤ distance → x.m_distance ≤ sel.m_distance) := by
  cases hfind : table.reverse.find? (fun data => decide (distance ≥ data.getDistance)) with
  | none =>
    obtain ⟨b, hb, hle⟩ := hex
    have := List.find?_eq_none.mp hfind b (List.mem_reverse.mpr hb)
    simp [WeightsData.getDistance] at this
    exact absurd hle (not_le.mpr this)
  | some sel =>
    obtain ⟨hsel, pre, post, hsplit, hpost⟩ := find_last_qualifying table distance sel hfind
    refine ⟨pre, sel, post, hsplit, hsel, hpost, ?_, ?_⟩
    · simp only [getRandomPowerup, hfind]
    · intro hsorted x hx hxd
      rw [hsplit] at hx hsorted
      rcases List.mem_append.mp hx with h | h
      · exact (List.pairwise_append.mp hsorted).2.2 x h sel (List.mem_cons_self _ _)
      · rcases List.mem_cons.mp h with h2 | h2
        · rw [h2]
        · exact absurd hxd (hpost x h2)

/-- Witness of C4: in the table with the thresholds 0, 10 and 20 a query at
distance 10 is answered by the bucket with threshold 10. -/
theorem getRandomPowerup_selects_bucket_witness :
    (∀ r : Nat, getRandomPowerup sampleTable 10 r
      = WeightsData.getRandomItem ⟨10, [⟨6, 1, POWERUP_CAKE⟩], 6⟩ r) ∧
    ∃ (pre : List WeightsData) (sel : WeightsData) (post : List WeightsData),
      sampleTable = pre ++ sel :: post ∧
      sel.m_distance ≤ 10 ∧
      (∀ x ∈ post, ¬ x.m_distance ≤ 10) ∧
      getRandomPowerup sampleTable 10 7 = sel.getRandomItem 7 ∧
      (List.Pairwise (fun x y => x.m_distance ≤ y.m_distance) sampleTable →
        ∀ x ∈ sampleTable, x.m_distance ≤ 10 → x.m_distance ≤ sel.m_distance) :=
  ⟨fun _ => rfl, getRandomPowerup_selects_bucket sampleTable 10 7 (by decide)⟩

/-- C9: `getRandomPowerup` fails its no-match assertion exactly when no bucket
of the active table has a threshold at most `distance`, as is the case for an
empty table; an item it returns is an item sampled from a bucket of the table
whose threshold is at most `distance`. -/
theorem getRandomPowerup_fails_iff (table : List WeightsData) (distance : ℚ) (r : Nat) :
    (getRandomPowerup table distance r = .error Fault.noBucketFound ↔
      ∀ b ∈ table, ¬ b.m_distance ≤ distance) ∧
    getRandomPowerup [] distance r = .error Fault.noBucketFound ∧
    (∀ p : WeightedPowerup, getRandomPowerup table distance r = .ok p →
      ∃ b ∈ table, b.m_distance ≤ distance ∧ b.getRandomItem r = .ok p) := by
  refine ⟨?_, rfl, ?_⟩
  · cases hfind : table.reverse.find? (fun data => decide (distance ≥ data.getDistance)) with
    | none =>
      simp only [getRandomPowerup, hfind, true_iff]
      intro b hb
      have := List.find?_eq_none.mp hfind b (List.mem_reverse.mpr hb)
      simpa [WeightsData.getDistance] using this
    | some sel =>
      obtain ⟨hsel, pre, post, hsplit, _⟩ := find_last_qualifying table distance sel hfind
      simp only [getRandomPowerup, hfind]
      constructor
      · intro h
        exact absurd h (getRandomItem_ne_noBucketFound sel r)
      · intro h
        exact absurd hsel (h sel (by rw [hsplit]; simp))
  · intro p hp
    cases hfind : table.reverse.find? (fun data => decide (distance ≥ data.getDistance)) with
    | none =>
      simp [getRandomPowerup, hfind] at hp
    | some sel =>
      obtain ⟨hsel, pre, post, hsplit, _⟩ := find_last_qualifying table distance sel hfind
      simp only [getRandomPowerup, hfind] at hp
      exact ⟨sel, by rw [hsplit]; simp, hsel, hp⟩

/-! ## What sampling can return -/

theorem loadPowerupWeights_count (su : StringUtils) (single_item multi_item : String) :
    ∀ e ∈ (loadPowerupWeights su single_item multi_item).1,
      (e.m_count = 1 ∨ e.m_count = 3) ∨ e = ⟨0, 0, POWERUP_NOTHING⟩ := by
  have hrows : ∀ e ∈ (readWeightRow su single_item).map
        (fun c => WeightedPowerup.mk (toUInt64 c.2) 1 c.1)
      ++ (readWeightRow su multi_item).map (fun c => WeightedPowerup.mk (toUInt64 c.2) 3 c.1),
      e.m_count = 1 ∨ e.m_count = 3 := by
    intro e he
    rcases List.mem_append.mp he with h | h
    · obtain ⟨c, _, rfl⟩ := List.mem_map.mp h
      exact Or.inl rfl
    · obtain ⟨c, _, rfl⟩ := List.mem_map.mp h
      exact Or.inr rfl
  intro e he
  unfold loadPowerupWeights at he
  dsimp only at he
  split at he
  · rcases List.mem_append.mp he with h | h
    · exact Or.inl (hrows e h)
    · exact Or.inr (List.eq_of_mem_replicate h)
  · split at he
    · exact Or.inl (hrows e he)
    · exact Or.inl (hrows e he)

theorem mergeAll_getElem?_kind (l : List WeightedPowerup) (k : Nat) (q : WeightedPowerup)
    (h : (mergeAll l)[k]? = some q) :
    ∃ e, l[k]? = some e ∧ e.m_type = q.m_type ∧ e.m_count = q.m_count := by
  obtain ⟨hk, _⟩ := List.getElem?_eq_some.mp h
  rw [mergeAll_length] at hk
  refine ⟨l.get ⟨k, hk⟩, List.getElem?_eq_getElem hk, ?_⟩
  cases l with
  | nil => simp at hk
  | cons x xs =>
    cases k with
    | zero =>
      simp only [mergeAll, List.getElem?_cons_zero, Option.some.injEq] at h
      subst h
      exact ⟨rfl, rfl⟩
    | succ k =>
      have hk' : k < xs.length := by simpa using hk
      have hget : xs[k]? = some (xs.get ⟨k, hk'⟩) := List.getElem?_eq_getElem hk'
      simp only [mergeAll, List.getElem?_cons_succ] at h
      rw [mergeFrom_getElem? xs x k _ hget, Option.some.injEq] at h
      subst h
      exact ⟨rfl, rfl⟩

theorem getRandomItem_index (b : WeightsData) (r : Nat) (p : WeightedPowerup)
    (h : b.getRandomItem r = .ok p) : ∃ k : Nat, b.m_weights[k]? = some p := by
  unfold WeightsData.getRandomItem at h
  split at h
  · exact absurd h (by simp)
  · dsimp only at h
    split at h
    · exact absurd h (by simp)
    · rename_i q hq
      simp only [Except.ok.injEq] at h
      subst h
      exact ⟨_, hq⟩

/-- C8: for a bucket built by `postProcessWeightData` from the entries
returned by `loadPowerupWeights`, an entry returned by `getRandomItem` has a
kind other than `POWERUP_NOTHING` and count 1 or 3, and sits at the position
of a surviving raw entry of the same kind and count whose weight is at least
1; every entry of the built bucket is such, so a raw entry of weight 0 (a
padding entry among them) is not among the survivors and gives no entry. -/
theorem sampled_item_is_surviving_entry (su : StringUtils) (distance : ℚ)
    (single_item multi_item : String) (raw b : WeightsData) (r : Nat) (p : WeightedPowerup)
    (hraw : loadPowerupWeightNode su distance single_item multi_item = .ok raw)
    (hbuilt : postProcessWeightData [raw] [] = .ok [b])
    (hp : b.getRandomItem r = .ok p) :
    p.m_type ≠ POWERUP_NOTHING ∧ (p.m_count = 1 ∨ p.m_count = 3) ∧
    (∃ (k : Nat) (e : WeightedPowerup), b.m_weights[k]? = some p ∧
      (survivors raw.m_weights)[k]? = some e ∧ e ∈ raw.m_weights ∧ 1 ≤ e.m_weight ∧
      e.m_type = p.m_type ∧ e.m_count = p.m_count) ∧
    (∀ (k : Nat) (q : WeightedPowerup), b.m_weights[k]? = some q →
      ∃ e : WeightedPowerup, (survivors raw.m_weights)[k]? = some e ∧ e ∈ raw.m_weights ∧
        1 ≤ e.m_weight ∧ e.m_type = q.m_type ∧ e.m_count = q.m_count) ∧
    (∀ e ∈ raw.m_weights, e.m_weight = 0 → e ∉ survivors raw.m_weights) := by
  obtain ⟨_, hrw, _⟩ := new_ok_iff _ _ _ hraw
  obtain ⟨_, hw, _⟩ := postProcess_single raw b hbuilt
  have hall : ∀ (k : Nat) (q : WeightedPowerup), b.m_weights[k]? = some q →
      ∃ e : WeightedPowerup, (survivors raw.m_weights)[k]? = some e ∧ e ∈ raw.m_weights ∧
        1 ≤ e.m_weight ∧ e.m_type ≠ POWERUP_NOTHING ∧ e.m_type = q.m_type ∧
        e.m_count = q.m_count := by
    intro k q hq
    rw [hw] at hq
    obtain ⟨e, he, ht, hc⟩ := mergeAll_getElem?_kind _ k q hq
    obtain ⟨hmem, hpos, hkind⟩ := (mem_survivors _ _).mp (List.getElem?_mem he)
    exact ⟨e, he, hmem, hpos, hkind, ht, hc⟩
  obtain ⟨k, hk⟩ := getRandomItem_index b r p hp
  obtain ⟨e, he, hmem, hpos, hkind, ht, hc⟩ := hall k p hk
  refine ⟨?_, ?_, ⟨k, e, hk, he, hmem, hpos, ht, hc⟩, ?_, ?_⟩
  · rw [← ht]
    exact hkind
  · rw [hrw] at hmem
    rcases loadPowerupWeights_count su single_item multi_item e hmem with h | h
    · rw [← hc]
      exact h
    · rw [h] at hkind
      exact absurd rfl hkind
  · intro k' q hq
    obtain ⟨e', he', hmem', hpos', _, ht', hc'⟩ := hall k' q hq
    exact ⟨e', he', hmem', hpos', ht', hc'⟩
  · intro e' _ hzero hsurv
    have := ((mem_survivors _ _).mp hsurv).2.1
    omega

/-- Witness of C8: the rows `single="10 0 5"` and `multi="0 0 0"` (padded with
fourteen entries), the built bucket and the random value 12, which gives the
bowling entry. -/
theorem sampled_item_is_surviving_entry_witness :
    POWERUP_BOWLING ≠ POWERUP_NOTHING ∧ ((1 : Nat) = 1 ∨ (1 : Nat) = 3) ∧
    (∃ (k : Nat) (e : WeightedPowerup),
      sampleBucket.m_weights[k]? = some ⟨15, 1, POWERUP_BOWLING⟩ ∧
      (survivors paddedRawEntries)[k]? = some e ∧ e ∈ paddedRawEntries ∧ 1 ≤ e.m_weight ∧
      e.m_type = POWERUP_BOWLING ∧ e.m_count = 1) ∧
    (∀ (k : Nat) (q : WeightedPowerup), sampleBucket.m_weights[k]? = some q →
      ∃ e : WeightedPowerup, (survivors paddedRawEntries)[k]? = some e ∧ e ∈ paddedRawEntries ∧
        1 ≤ e.m_weight ∧ e.m_type = q.m_type ∧ e.m_count = q.m_count) ∧
    (∀ e ∈ paddedRawEntries, e.m_weight = 0 → e ∉ survivors paddedRawEntries) :=
  sampled_item_is_surviving_entry stringUtils 0 "10 0 5" "0 0 0" ⟨0, paddedRawEntries, 10⟩
    sampleBucket 12 ⟨15, 1, POWERUP_BOWLING⟩ (by decide) (by decide) (by decide)

/-- C10 (the code at the failing input): for the rows of zeros no entry
survives, and `postProcessWeightData` does not give a bucket with total 0: the
constructor of `WeightsData` takes the maximum of the empty sequence and reads
through `end()`. The method `getRandomItem` has no test of the total either:
on a bucket with total 0 it evaluates `random_number % 0`. -/
theorem postProcess_without_survivor_is_undefined :
    survivors allZeroRawEntries = [] ∧
    postProcess_weights allZeroRawEntries = [] ∧
    WeightsData.new 0 [] = .error Fault.maxElementOfEmpty ∧
    postProcessWeightData [⟨0, allZeroRawEntries, 0⟩] [] = .error Fault.maxElementOfEmpty ∧
    ∀ (d : ℚ) (r : Nat), WeightsData.getRandomItem ⟨d, [], 0⟩ r = .error Fault.moduloByZero :=
  ⟨by decide, by decide, by decide, by decide, fun _ _ => rfl⟩

/-! ## Reading the rows -/

theorem readWeightRow_loop_eq (su : StringUtils) (toks : List String) :
    ∀ i : Nat, readWeightRow_loop su toks i =
      ((toks.filter (fun str => !str.isEmpty)).enumFrom i).map
        (fun p => (convertToPowerupType p.1, su.readWeight p.2)) := by
  induction toks with
  | nil => intro i; rfl
  | cons str rest ih =>
    intro i
    by_cases h : str.isEmpty = true
    · simp only [readWeightRow_loop, h, if_true, ih i, List.filter_cons, Bool.not_true,
        Bool.false_eq_true, if_false]
    · have h' : str.isEmpty = false := by simpa using h
      simp only [readWeightRow_loop, h', Bool.false_eq_true, if_false, ih (i + 1),
        List.filter_cons, Bool.not_false, if_true, List.enumFrom_cons, List.map_cons]

theorem weightRowEntries_eq (su : StringUtils) (items : String) (count : Nat) :
    weightRowEntries su items count =
      ((nonEmptyTokens su items).enumFrom POWERUP_FIRST).map
        (fun p => WeightedPowerup.mk (toUInt64 (su.readWeight p.2)) count
          (convertToPowerupType p.1)) := by
  unfold weightRowEntries readWeightRow nonEmptyTokens
  rw [readWeightRow_loop_eq, List.map_map]
  rfl

theorem weightRowEntries_length (su : StringUtils) (items : String) (count : Nat) :
    (weightRowEntries su items count).length = (nonEmptyTokens su items).length := by
  rw [weightRowEntries_eq, List.length_map, List.enumFrom_length]

theorem convertToPowerupType_succ (i : Nat) :
    convertToPowerupType (POWERUP_FIRST + i) =
      if i < 10 then PowerupType.ofValue (i + 1) else POWERUP_NOTHING := by
  unfold convertToPowerupType POWERUP_FIRST POWERUP_LAST
  by_cases h : i < 10
  · have h1 : 1 ≤ 1 + i ∧ 1 + i ≤ 10 := by omega
    rw [if_pos h1, if_pos h, Nat.add_comm]
  · have h1 : ¬ (1 ≤ 1 + i ∧ 1 + i ≤ 10) := by omega
    rw [if_neg h1, if_neg h]

theorem ofValue_ne_nothing (i : Nat) (h : i < 10) :
    PowerupType.ofValue (i + 1) ≠ POWERUP_NOTHING := by
  interval_cases i <;> decide

theorem weightRowEntries_getElem? (su : StringUtils) (items : String) (count : Nat)
    (i : Nat) (tok : String) (h : (nonEmptyTokens su items)[i]? = some tok) :
    (weightRowEntries su items count)[i]? =
      some ⟨toUInt64 (su.readWeight tok), count,
        if i < 10 then PowerupType.ofValue (i + 1) else POWERUP_NOTHING⟩ := by
  rw [weightRowEntries_eq, List.getElem?_map, List.getElem?_enumFrom, h]
  simp only [Option.map_some', convertToPowerupType_succ]

theorem toUInt64_of_neg (w : Int) (h0 : w < 0) (h1 : -(2 ^ 64) ≤ w) :
    (toUInt64 w : Int) = 2 ^ 64 + w := by
  unfold toUInt64
  have hmod : w % 2 ^ 64 = 2 ^ 64 + w := by
    have h2 : (w + 2 ^ 64) % 2 ^ 64 = w + 2 ^ 64 :=
      Int.emod_eq_of_lt (by omega) (by omega)
    rw [Int.add_emod_self] at h2
    omega
  rw [hmod, Int.toNat_of_nonneg (by omega)]

theorem toInt32_of_range (v : Int) (h0 : -(2 ^ 31) ≤ v) (h1 : v < 2 ^ 31) : toInt32 v = v := by
  unfold toInt32
  rw [Int.emod_eq_of_lt (by omega) (by omega)]
  omega

theorem loadPowerupWeights_cases (su : StringUtils) (single_item multi_item : String)
    (rows : List WeightedPowerup)
    (hrows : rows = weightRowEntries su single_item 1 ++ weightRowEntries su multi_item 3) :
    (rows.length < EXPECTED_NUM_POWERUPS →
      loadPowerupWeights su single_item multi_item =
        (rows ++ List.replicate (EXPECTED_NUM_POWERUPS - rows.length) ⟨0, 0, POWERUP_NOTHING⟩,
          some LogMessage.notEnoughEntries)) ∧
    (rows.length > EXPECTED_NUM_POWERUPS →
      loadPowerupWeights su single_item multi_item = (rows, some LogMessage.tooManyEntries)) ∧
    (rows.length = EXPECTED_NUM_POWERUPS →
      loadPowerupWeights su single_item multi_item = (rows, none)) := by
  subst hrows
  unfold weightRowEntries loadPowerupWeights
  dsimp only
  refine ⟨?_, ?_, ?_⟩
  · intro h
    rw [if_pos h]
  · intro h
    rw [if_neg (by omega), if_pos h]
  · intro h
    rw [if_neg (by omega), if_neg (by omega)]

/-- C12: with `rows` the entries of the row `single` followed by those of the
row `multi`, `n` their number and `E = EXPECTED_NUM_POWERUPS = 20`:
`loadPowerupWeights` returns `rows` followed by `E - n` entries of weight 0 and
kind `POWERUP_NOTHING` and reports an error when `n < E`, returns `rows` and
reports an error when `n > E`, returns `rows` and reports nothing when
`n = E`; the result has length `max n E` and an error is reported exactly when
`n ≠ E`. -/
theorem loadPowerupWeights_length_check (su : StringUtils) (single_item multi_item : String) :
    EXPECTED_NUM_POWERUPS = 20 ∧
    ((weightRowEntries su single_item 1 ++ weightRowEntries su multi_item 3).length
        < EXPECTED_NUM_POWERUPS →
      loadPowerupWeights su single_item multi_item =
        (weightRowEntries su single_item 1 ++ weightRowEntries su multi_item 3 ++
          List.replicate (EXPECTED_NUM_POWERUPS -
            (weightRowEntries su single_item 1 ++ weightRowEntries su multi_item 3).length)
            ⟨0, 0, POWERUP_NOTHING⟩,
          some LogMessage.notEnoughEntries)) ∧
    ((weightRowEntries su single_item 1 ++ weightRowEntries su multi_item 3).length
        > EXPECTED_NUM_POWERUPS →
      loadPowerupWeights su single_item multi_item =
        (weightRowEntries su single_item 1 ++ weightRowEntries su multi_item 3,
          some LogMessage.tooManyEntries)) ∧
    ((weightRowEntries su single_item 1 ++ weightRowEntries su multi_item 3).length
        = EXPECTED_NUM_POWERUPS →
      loadPowerupWeights su single_item multi_item =
        (weightRowEntries su single_item 1 ++ weightRowEntries su multi_item 3, none)) ∧
    (loadPowerupWeights su single_item multi_item).1.length =
      max (weightRowEntries su single_item 1 ++ weightRowEntries su multi_item 3).length
        EXPECTED_NUM_POWERUPS ∧
    ((loadPowerupWeights su single_item multi_item).2 ≠ none ↔
      (weightRowEntries su single_item 1 ++ weightRowEntries su multi_item 3).length
        ≠ EXPECTED_NUM_POWERUPS) := by
  obtain ⟨hlt, hgt, heq⟩ := loadPowerupWeights_cases su single_item multi_item _ rfl
  refine ⟨rfl, hlt, hgt, heq, ?_, ?_⟩
  · rcases Nat.lt_trichotomy
        (weightRowEntries su single_item 1 ++ weightRowEntries su multi_item 3).length
        EXPECTED_NUM_POWERUPS with h | h | h
    · rw [hlt h, List.length_append, List.length_replicate]
      omega
    · rw [heq h]
      dsimp only
      omega
    · rw [hgt h]
      dsimp only
      omega
  · rcases Nat.lt_trichotomy
        (weightRowEntries su single_item 1 ++ weightRowEntries su multi_item 3).length
        EXPECTED_NUM_POWERUPS with h | h | h
    · rw [hlt h]
      simp only [ne_eq, reduceCtorEq, not_false_eq_true, true_iff]
      omega
    · rw [heq h]
      simp only [ne_eq, not_true_eq_false, false_iff, not_not]
      exact h
    · rw [hgt h]
      simp only [ne_eq, reduceCtorEq, not_false_eq_true, true_iff]
      omega

theorem convertToPowerupType_of_gt (j : Nat) (h : 10 < j) :
    convertToPowerupType j = POWERUP_NOTHING := by
  unfold convertToPowerupType POWERUP_FIRST POWERUP_LAST
  rw [if_neg (by omega)]

theorem countP_kind_range (k : PowerupType) (hk : k ≠ POWERUP_NOTHING) (len : Nat)
    (h10 : 10 ≤ len) :
    (List.range' POWERUP_FIRST len).countP (fun j => decide (convertToPowerupType j = k)) = 1 := by
  obtain ⟨d, rfl⟩ : ∃ d, len = d + 10 := ⟨len - 10, by omega⟩
  unfold POWERUP_FIRST
  rw [← List.range'_append_1 1 10 d, List.countP_append]
  have h2 : (List.range' (1 + 10) d).countP (fun j => decide (convertToPowerupType j = k)) = 0 := by
    rw [List.countP_eq_zero]
    intro j hj
    have hj' := List.mem_range'_1.mp hj
    rw [convertToPowerupType_of_gt j (by omega)]
    simpa using hk.symm
  rw [h2]
  cases k <;> first | exact absurd rfl hk | decide

theorem weightRowEntries_countP_kind (su : StringUtils) (items : String) (count : Nat)
    (k : PowerupType) (hk : k ≠ POWERUP_NOTHING) (h10 : 10 ≤ (nonEmptyTokens su items).length) :
    (weightRowEntries su items count).countP (fun e => decide (e.m_type = k)) = 1 := by
  rw [weightRowEntries_eq, List.countP_map]
  have hfun : ((fun e : WeightedPowerup => decide (e.m_type = k)) ∘
      (fun p : Nat × String => WeightedPowerup.mk (toUInt64 (su.readWeight p.2)) count
        (convertToPowerupType p.1))) =
      ((fun j => decide (convertToPowerupType j = k)) ∘ Prod.fst) := rfl
  rw [hfun, ← List.countP_map, List.enumFrom_map_fst]
  exact countP_kind_range k hk _ h10

theorem weightRowEntries_count (su : StringUtils) (items : String) (count : Nat) :
    ∀ e ∈ weightRowEntries su items count, e.m_count = count := by
  intro e he
  unfold weightRowEntries at he
  obtain ⟨c, _, rfl⟩ := List.mem_map.mp he
  rfl

theorem weightRowEntries_countP_kind_count (su : StringUtils) (items : String) (count c : Nat)
    (k : PowerupType) (hk : k ≠ POWERUP_NOTHING) (h10 : 10 ≤ (nonEmptyTokens su items).length) :
    (weightRowEntries su items count).countP (fun e => decide (e.m_type = k ∧ e.m_count = c))
      = if count = c then 1 else 0 := by
  by_cases hc : count = c
  · rw [if_pos hc, ← weightRowEntries_countP_kind su items count k hk h10]
    apply List.countP_congr
    intro e he
    have := weightRowEntries_count su items count e he
    simp [this, hc]
  · rw [if_neg hc, List.countP_eq_zero]
    intro e he
    have := weightRowEntries_count su items count e he
    simp [this, hc]

/-- C13, counterexample: from the rows `single="10 0 5"` and `multi="0 0 0"`
the kind anchor has no raw entry and the kind bubblegum has two; from a row
of twelve tokens and a row of eight tokens, for which nothing is reported,
the kind anchor has one raw entry only. -/
theorem raw_entries_per_kind_differ :
    paddedRawEntries.countP (fun e => decide (e.m_type = POWERUP_ANCHOR)) = 0 ∧
    paddedRawEntries.countP (fun e => decide (e.m_type = POWERUP_BUBBLEGUM)) = 2 ∧
    unevenRawEntries.2 = none ∧
    unevenRawEntries.1.countP (fun e => decide (e.m_type = POWERUP_ANCHOR)) = 1 := by
  decide

/-- C13, amended: when each of the two rows has at least ten non-empty tokens
(one per concrete kind), the entries returned by `loadPowerupWeights` are the
entries of the two rows, and every concrete kind has exactly two of them: one
with count 1, from the row `single`, and one with count 3, from the row
`multi`. -/
theorem two_raw_entries_per_kind (su : StringUtils) (single_item multi_item : String)
    (k : PowerupType) (hk : k ≠ POWERUP_NOTHING)
    (hsingle : 10 ≤ (nonEmptyTokens su single_item).length)
    (hmulti : 10 ≤ (nonEmptyTokens su multi_item).length) :
    (loadPowerupWeights su single_item multi_item).1 =
      weightRowEntries su single_item 1 ++ weightRowEntries su multi_item 3 ∧
    (loadPowerupWeights su single_item multi_item).1.countP
      (fun e => decide (e.m_type = k)) = 2 ∧
    (loadPowerupWeights su single_item multi_item).1.countP
      (fun e => decide (e.m_type = k ∧ e.m_count = 1)) = 1 ∧
    (loadPowerupWeights su single_item multi_item).1.countP
      (fun e => decide (e.m_type = k ∧ e.m_count = 3)) = 1 ∧
    (weightRowEntries su single_item 1).countP (fun e => decide (e.m_type = k)) = 1 ∧
    (weightRowEntries su multi_item 3).countP (fun e => decide (e.m_type = k)) = 1 := by
  obtain ⟨_, hgt, heq⟩ := loadPowerupWeights_cases su single_item multi_item _ rfl
  have hlen : EXPECTED_NUM_POWERUPS ≤
      (weightRowEntries su single_item 1 ++ weightRowEntries su multi_item 3).length := by
    rw [List.length_append, weightRowEntries_length, weightRowEntries_length]
    unfold EXPECTED_NUM_POWERUPS POWERUP_LAST
    omega
  have hres : (loadPowerupWeights su single_item multi_item).1 =
      weightRowEntries su single_item 1 ++ weightRowEntries su multi_item 3 := by
    rcases Nat.eq_or_lt_of_le hlen with h | h
    · rw [heq h.symm]
    · rw [hgt h]
  have h1 := weightRowEntries_countP_kind su single_item 1 k hk hsingle
  have h3 := weightRowEntries_countP_kind su multi_item 3 k hk hmulti
  refine ⟨hres, ?_, ?_, ?_, h1, h3⟩
  · rw [hres, List.countP_append, h1, h3]
  · rw [hres, List.countP_append,
      weightRowEntries_countP_kind_count su single_item 1 1 k hk hsingle,
      weightRowEntries_countP_kind_count su multi_item 3 1 k hk hmulti]
    rfl
  · rw [hres, List.countP_append,
      weightRowEntries_countP_kind_count su single_item 1 3 k hk hsingle,
      weightRowEntries_countP_kind_count su multi_item 3 3 k hk hmulti]
    rfl

/-- Witness of the amended C13: the rows of the example with ten tokens each
and the kind bowling. -/
theorem two_raw_entries_per_kind_witness :
    (loadPowerupWeights stringUtils "10 0 5 0 0 0 0 0 0 0" "0 0 0 0 0 0 0 0 0 0").1 =
      weightRowEntries stringUtils "10 0 5 0 0 0 0 0 0 0" 1 ++
        weightRowEntries stringUtils "0 0 0 0 0 0 0 0 0 0" 3 ∧
    (loadPowerupWeights stringUtils "10 0 5 0 0 0 0 0 0 0" "0 0 0 0 0 0 0 0 0 0").1.countP
      (fun e => decide (e.m_type = POWERUP_BOWLING)) = 2 ∧
    (loadPowerupWeights stringUtils "10 0 5 0 0 0 0 0 0 0" "0 0 0 0 0 0 0 0 0 0").1.countP
      (fun e => decide (e.m_type = POWERUP_BOWLING ∧ e.m_count = 1)) = 1 ∧
    (loadPowerupWeights stringUtils "10 0 5 0 0 0 0 0 0 0" "0 0 0 0 0 0 0 0 0 0").1.countP
      (fun e => decide (e.m_type = POWERUP_BOWLING ∧ e.m_count = 3)) = 1 ∧
    (weightRowEntries stringUtils "10 0 5 0 0 0 0 0 0 0" 1).countP
      (fun e => decide (e.m_type = POWERUP_BOWLING)) = 1 ∧
    (weightRowEntries stringUtils "0 0 0 0 0 0 0 0 0 0" 3).countP
      (fun e => decide (e.m_type = POWERUP_BOWLING)) = 1 :=
  two_raw_entries_per_kind stringUtils "10 0 5 0 0 0 0 0 0 0" "0 0 0 0 0 0 0 0 0 0"
    POWERUP_BOWLING (by decide) (by decide) (by decide)

/-! ## Assembling and loading a table -/

theorem postProcessWeightData_append (raw_data : List WeightsData) :
    ∀ processed : List WeightsData,
      postProcessWeightData raw_data processed =
        match postProcessWeightData raw_data [] with
        | .error e => .error e
        | .ok out => .ok (processed ++ out) := by
  induction raw_data with
  | nil =>
    intro processed
    simp [postProcessWeightData]
  | cons raw rest ih =>
    intro processed
    simp only [postProcessWeightData]
    cases floatToUInt64 raw.getDistance with
    | error e => rfl
    | ok n =>
      dsimp only
      cases WeightsData.new (n : ℚ) (postProcess_weights raw.getPowerupWeights) with
      | error e => rfl
      | ok built =>
        dsimp only
        rw [ih (processed ++ [built]), ih ([] ++ [built])]
        cases postProcessWeightData rest [] with
        | error e => rfl
        | ok out => simp

theorem postProcess_cons (raw : WeightsData) (rest out : List WeightsData) :
    postProcessWeightData (raw :: rest) [] = .ok out ↔
      ∃ (b : WeightsData) (out' : List WeightsData),
        postProcessWeightData [raw] [] = .ok [b] ∧
        postProcessWeightData rest [] = .ok out' ∧ out = b :: out' := by
  simp only [postProcessWeightData]
  cases floatToUInt64 raw.getDistance with
  | error e => simp
  | ok n =>
    dsimp only
    cases WeightsData.new (n : ℚ) (postProcess_weights raw.getPowerupWeights) with
    | error e => simp
    | ok built =>
      dsimp only
      rw [postProcessWeightData_append rest ([] ++ [built])]
      cases postProcessWeightData rest [] with
      | error e => simp
      | ok out' =>
        simp only [List.nil_append, Except.ok.injEq, List.cons.injEq, and_true,
          List.singleton_append]
        constructor
        · intro h
          exact ⟨built, out', rfl, rfl, h.symm⟩
        · rintro ⟨b, o, hb, ho, hout⟩
          rw [hout, ← hb, ← ho]

theorem postProcess_ok_spec (raw_data : List WeightsData) :
    ∀ out : List WeightsData, postProcessWeightData raw_data [] = .ok out →
      out.length = raw_data.length ∧
      ∀ (i : Nat) (raw : WeightsData), raw_data[i]? = some raw →
        ∃ b : WeightsData, out[i]? = some b ∧ postProcessWeightData [raw] [] = .ok [b] := by
  induction raw_data with
  | nil =>
    intro out h
    simp only [postProcessWeightData, Except.ok.injEq] at h
    subst h
    simp
  | cons raw rest ih =>
    intro out h
    obtain ⟨b, out', hb, hrest, hout⟩ := (postProcess_cons raw rest out).mp h
    obtain ⟨hlen, hidx⟩ := ih out' hrest
    subst hout
    refine ⟨by simp [hlen], ?_⟩
    intro i raw' hi
    cases i with
    | zero =>
      simp only [List.getElem?_cons_zero, Option.some.injEq] at hi
      subst hi
      exact ⟨b, by simp, hb⟩
    | succ i =>
      simp only [List.getElem?_cons_succ] at hi ⊢
      exact hidx i raw' hi

theorem postProcess_builds_all (raw_data : List WeightsData)
    (h : ∀ raw ∈ raw_data, survivors raw.m_weights ≠ [] ∧
      ∃ n : Nat, floatToUInt64 raw.m_distance = .ok n) :
    ∃ out : List WeightsData, postProcessWeightData raw_data [] = .ok out := by
  induction raw_data with
  | nil => exact ⟨[], rfl⟩
  | cons raw rest ih =>
    obtain ⟨hs, n, hn⟩ := h raw (List.mem_cons_self _ _)
    obtain ⟨b, hb, _⟩ := postProcess_single_builds raw n hn hs
    obtain ⟨out', hout'⟩ := ih (fun r hr => h r (List.mem_cons_of_mem _ hr))
    exact ⟨b :: out', (postProcess_cons raw rest (b :: out')).mpr ⟨b, out', hb, hout', rfl⟩⟩

/-- C14 (the code at the failing input): for a table of two raw buckets, the
second without a surviving entry, `postProcessWeightData` builds the first
bucket and then has no defined result: the constructor of the second bucket
takes the maximum of an empty vector and reads through `end()`. No table with
one bucket per raw bucket comes out. -/
theorem postProcess_stops_without_table :
    survivors sampleRawEntries ≠ [] ∧
    survivors allZeroRawEntries = [] ∧
    postProcessWeightData [⟨0, sampleRawEntries, 10⟩] [] = .ok [sampleBucket] ∧
    postProcessWeightData [⟨0, sampleRawEntries, 10⟩, ⟨10, allZeroRawEntries, 0⟩] []
      = .error Fault.maxElementOfEmpty := by
  decide

/-- The inputs on which one bucket per raw bucket is built: for an empty
target table and raw buckets that each have a surviving entry and a threshold
whose conversion to `uint64_t` is defined, `postProcessWeightData` returns a
table with one bucket per raw bucket, in the same order: the result has the
length of the input and the entries of its `i`-th bucket are those the inner
loop builds from the `i`-th raw bucket, the surviving entries merged in their
order. -/
theorem postProcess_one_bucket_per_raw_bucket (raw_data : List WeightsData)
    (h : ∀ raw ∈ raw_data, survivors raw.m_weights ≠ [] ∧
      ∃ n : Nat, floatToUInt64 raw.m_distance = .ok n) :
    ∃ out : List WeightsData, postProcessWeightData raw_data [] = .ok out ∧
      out.length = raw_data.length ∧
      ∀ (i : Nat) (raw : WeightsData), raw_data[i]? = some raw →
        ∃ b : WeightsData, out[i]? = some b ∧
          b.m_weights = postProcess_weights raw.m_weights ∧
          b.m_weights = mergeAll (survivors raw.m_weights) ∧
          ∃ n : Nat, floatToUInt64 raw.m_distance = .ok n ∧ b.m_distance = (n : ℚ) := by
  obtain ⟨out, hout⟩ := postProcess_builds_all raw_data h
  obtain ⟨hlen, hidx⟩ := postProcess_ok_spec raw_data out hout
  refine ⟨out, hout, hlen, ?_⟩
  intro i raw hi
  obtain ⟨b, hb, hbuilt⟩ := hidx i raw hi
  obtain ⟨hd, hw, _⟩ := postProcess_single raw b hbuilt
  exact ⟨b, hb, by rw [hw, postProcess_weights_eq], hw, hd⟩

/-- An instance of `postProcess_one_bucket_per_raw_bucket`: two raw buckets
with the thresholds 0 and 10, built from the example rows and from the short
rows. -/
theorem postProcess_one_bucket_per_raw_bucket_witness :
    ∃ out : List WeightsData,
      postProcessWeightData [⟨0, sampleRawEntries, 10⟩, ⟨10, paddedRawEntries, 10⟩] [] = .ok out ∧
      out.length = [(⟨0, sampleRawEntries, 10⟩ : WeightsData), ⟨10, paddedRawEntries, 10⟩].length ∧
      ∀ (i : Nat) (raw : WeightsData),
        [(⟨0, sampleRawEntries, 10⟩ : WeightsData), ⟨10, paddedRawEntries, 10⟩][i]? = some raw →
        ∃ b : WeightsData, out[i]? = some b ∧
          b.m_weights = postProcess_weights raw.m_weights ∧
          b.m_weights = mergeAll (survivors raw.m_weights) ∧
          ∃ n : Nat, floatToUInt64 raw.m_distance = .ok n ∧ b.m_distance = (n : ℚ) :=
  postProcess_one_bucket_per_raw_bucket [⟨0, sampleRawEntries, 10⟩, ⟨10, paddedRawEntries, 10⟩]
    (fun raw hraw => by
      rcases List.mem_cons.mp hraw with h | h
      · subst h
        exact ⟨by decide, 0, by decide⟩
      · rcases List.mem_cons.mp h with h2 | h2
        · subst h2
          exact ⟨by decide, 10, by decide⟩
        · exact absurd h2 (List.not_mem_nil _))

/-! ## Looking up a name -/

/-- C15: `getPowerupType` returns the kind of value `i` when the name is the
`i`-th name of the table (`i` from 1 to 10), which is a concrete kind, and
`POWERUP_NOTHING` for every other string, the empty string among them; the
name of a kind is its entry in the table, and the name of every concrete kind
is mapped back to that kind. -/
theorem getPowerupType_spec :
    powerup_names = [ "", "bubblegum", "cake", "bowling", "zipper", "plunger", "switch",
      "swatter", "rubber-ball", "parachute", "anchor" ] ∧
    (∀ (name : String) (i : Nat), 1 ≤ i → i ≤ 10 → powerup_names[i]? = some name →
      getPowerupType name = PowerupType.ofValue i ∧
      PowerupType.ofValue i ≠ POWERUP_NOTHING) ∧
    (∀ name : String, (∀ i : Nat, 1 ≤ i → i ≤ 10 → powerup_names[i]? ≠ some name) →
      getPowerupType name = POWERUP_NOTHING) ∧
    getPowerupType "" = POWERUP_NOTHING ∧
    (∀ i : Nat, i ≤ 10 → powerup_names[i]? = some (PowerupType.ofValue i).name) ∧
    (∀ k : PowerupType, k ≠ POWERUP_NOTHING → getPowerupType k.name = k) := by
  refine ⟨rfl, ?_, ?_, by decide, ?_, ?_⟩
  · intro name i h1 h2 h
    interval_cases i <;>
      (simp only [powerup_names, List.getElem?_cons_succ, List.getElem?_cons_zero,
        Option.some.injEq] at h
       subst h
       decide)
  · intro name h
    have e1 := h 1 (by decide) (by decide)
    have e2 := h 2 (by decide) (by decide)
    have e3 := h 3 (by decide) (by decide)
    have e4 := h 4 (by decide) (by decide)
    have e5 := h 5 (by decide) (by decide)
    have e6 := h 6 (by decide) (by decide)
    have e7 := h 7 (by decide) (by decide)
    have e8 := h 8 (by decide) (by decide)
    have e9 := h 9 (by decide) (by decide)
    have e10 := h 10 (by decide) (by decide)
    simp only [powerup_names, List.getElem?_cons_succ, List.getElem?_cons_zero, ne_eq,
      Option.some.injEq] at e1 e2 e3 e4 e5 e6 e7 e8 e9 e10
    simp only [getPowerupType, POWERUP_FIRST, POWERUP_LAST, List.range', getPowerupType_loop,
      powerup_names, List.getD_cons_succ, List.getD_cons_zero, e1, e2, e3, e4, e5, e6, e7, e8,
      e9, e10, if_false]
  · intro i hi
    interval_cases i <;> decide
  · intro k hk
    cases k <;> first | exact absurd rfl hk | decide

/-! ## The search always finds an entry -/

/-- C16: for a bucket whose entries have strictly ascending weights and whose
total `m_cfd` is the weight of the last entry and is positive, the search of
`getRandomItem` stops before `end()` for every random value: the assertion
does not fail and an entry of the bucket is returned. -/
theorem lower_bound_finds_entry (b : WeightsData) (randomValue : Nat) (last : WeightedPowerup)
    (hasc : List.Pairwise (fun p q => p.m_weight < q.m_weight) b.m_weights)
    (hlast : b.m_weights.getLast? = some last)
    (htotal : b.m_cfd = last.m_weight)
    (hpos : 0 < b.m_cfd) :
    lower_bound b.m_weights (randomValue % b.m_cfd) < b.m_weights.length ∧
    b.getRandomItem randomValue ≠ .error Fault.noItemFound ∧
    ∃ p : WeightedPowerup, b.getRandomItem randomValue = .ok p ∧ p ∈ b.m_weights := by
  have hr : randomValue % b.m_cfd < b.m_cfd := Nat.mod_lt _ hpos
  obtain ⟨_, hlo, _⟩ :=
    lower_bound_spec b.m_weights (randomValue % b.m_cfd) (mono_of_pairwise_lt b.m_weights hasc)
  have hk : lower_bound b.m_weights (randomValue % b.m_cfd) < b.m_weights.length := by
    obtain ⟨i, hget⟩ := List.mem_iff_get.mp (List.mem_of_getLast?_eq_some hlast)
    by_contra hcon
    have hlt := hlo i.1 i.2 (by omega)
    rw [hget, ← htotal] at hlt
    omega
  have hres : b.getRandomItem randomValue
      = .ok (b.m_weights.get ⟨lower_bound b.m_weights (randomValue % b.m_cfd), hk⟩) := by
    simp only [WeightsData.getRandomItem, Nat.pos_iff_ne_zero.mp hpos, if_false]
    rw [List.getElem?_eq_getElem hk]
    rfl
  refine ⟨hk, ?_, _, hres, List.get_mem _ _ _⟩
  rw [hres]
  simp

/-- Witness of C16: the bucket with the weights 10 and 15 and total 15, and
the random value 29, reduced to 14. -/
theorem lower_bound_finds_entry_witness :
    lower_bound sampleBucket.m_weights (29 % sampleBucket.m_cfd) < sampleBucket.m_weights.length ∧
    sampleBucket.getRandomItem 29 ≠ .error Fault.noItemFound ∧
    ∃ p : WeightedPowerup, sampleBucket.getRandomItem 29 = .ok p ∧ p ∈ sampleBucket.m_weights :=
  lower_bound_finds_entry sampleBucket 29 ⟨15, 1, POWERUP_BOWLING⟩
    (by decide) (by decide) (by decide) (by decide)

/-! ## Thresholds are truncated -/

theorem survivors_append_cons (pre post : List WeightedPowerup) (e : WeightedPowerup)
    (he : survives e = true) :
    survivors (pre ++ e :: post) = survivors pre ++ e :: survivors post := by
  unfold survivors
  rw [List.filter_append, List.filter_cons, if_pos he]

theorem postProcess_keeps_survivor (pre post : List WeightedPowerup) (e : WeightedPowerup)
    (he : survives e = true) :
    ∃ q : WeightedPowerup,
      (postProcess_weights (pre ++ e :: post))[(survivors pre).length]? = some q ∧
      q.m_type = e.m_type ∧ q.m_count = e.m_count := by
  rw [postProcess_weights_eq, survivors_append_cons pre post e he]
  have hlt : (survivors pre).length <
      (mergeAll (survivors pre ++ e :: survivors post)).length := by
    rw [mergeAll_length, List.length_append, List.length_cons]
    omega
  refine ⟨_, List.getElem?_eq_getElem hlt, ?_⟩
  obtain ⟨e', he', ht, hc⟩ := mergeAll_getElem?_kind _ _ _ (List.getElem?_eq_getElem hlt)
  have : e' = e := by
    rw [List.getElem?_append_right (le_refl _)] at he'
    simpa using he'.symm
  subst this
  exact ⟨ht.symm, hc.symm⟩

/-- C18: a token at position `i < 10` of a row that is read as a negative
`int` `w` gives the entry with the weight `2 ^ 64 + w`; this entry passes the
test `weight < 1` and the test of the kind, and wherever it stands among the
raw entries the built entries have an entry of its kind and count at its
position among the survivors. For the rows with the token `-1` followed by the
weight 2 the built weights are `2 ^ 64 - 1` and `1`: not strictly
increasing. -/
theorem negative_weight_survives (su : StringUtils) (items : String) (count i : Nat)
    (tok : String) (w : Int) (pre post : List WeightedPowerup)
    (htok : (nonEmptyTokens su items)[i]? = some tok)
    (hi : i < 10)
    (hw : su.fromString tok = w)
    (hneg : w < 0)
    (hint : -(2 ^ 31) ≤ w) :
    (toUInt64 w : Int) = 2 ^ 64 + w ∧
    (weightRowEntries su items count)[i]?
      = some ⟨toUInt64 w, count, PowerupType.ofValue (i + 1)⟩ ∧
    survives ⟨toUInt64 w, count, PowerupType.ofValue (i + 1)⟩ = true ∧
    (∃ q : WeightedPowerup,
      (postProcess_weights
        (pre ++ ⟨toUInt64 w, count, PowerupType.ofValue (i + 1)⟩ :: post))[(survivors pre).length]?
        = some q ∧
      q.m_type = PowerupType.ofValue (i + 1) ∧ q.m_count = count) ∧
    (∃ b : WeightsData,
      postProcessWeightData [⟨0, wrappingRawEntries, 2 ^ 64 - 1⟩] [] = .ok [b] ∧
      b.m_weights.map WeightedPowerup.m_weight = [2 ^ 64 - 1, 1] ∧
      ¬ List.Pairwise (fun p q => p.m_weight < q.m_weight) b.m_weights) := by
  have hconv : (toUInt64 w : Int) = 2 ^ 64 + w := toUInt64_of_neg w hneg (by omega)
  have hsurv : survives ⟨toUInt64 w, count, PowerupType.ofValue (i + 1)⟩ = true := by
    rw [survives_iff]
    refine ⟨?_, ofValue_ne_nothing i hi⟩
    show 1 ≤ toUInt64 w
    omega
  refine ⟨hconv, ?_, hsurv, postProcess_keeps_survivor pre post _ hsurv, ?_⟩
  · have hread : su.readWeight tok = w := by
      unfold StringUtils.readWeight
      rw [hw]
      exact toInt32_of_range w hint (by omega)
    rw [weightRowEntries_getElem? su items count i tok htok, hread, if_pos hi]
  · exact ⟨⟨0, [⟨2 ^ 64 - 1, 1, POWERUP_BUBBLEGUM⟩, ⟨1, 1, POWERUP_CAKE⟩], 2 ^ 64 - 1⟩,
      by decide, by decide, by decide⟩

/-- Witness of C18: the token `-1` at the head of the row
`-1 2 0 0 0 0 0 0 0 0`, with count 1, between no entry and the entry of
weight 2. -/
theorem negative_weight_survives_witness :
    (toUInt64 (-1) : Int) = 2 ^ 64 + (-1) ∧
    (weightRowEntries stringUtils "-1 2 0 0 0 0 0 0 0 0" 1)[0]?
      = some ⟨toUInt64 (-1), 1, PowerupType.ofValue (0 + 1)⟩ ∧
    survives ⟨toUInt64 (-1), 1, PowerupType.ofValue (0 + 1)⟩ = true ∧
    (∃ q : WeightedPowerup,
      (postProcess_weights
        ([] ++ ⟨toUInt64 (-1), 1, PowerupType.ofValue (0 + 1)⟩ ::
          [⟨2, 1, POWERUP_CAKE⟩]))[(survivors []).length]? = some q ∧
      q.m_type = PowerupType.ofValue (0 + 1) ∧ q.m_count = 1) ∧
    (∃ b : WeightsData,
      postProcessWeightData [⟨0, wrappingRawEntries, 2 ^ 64 - 1⟩] [] = .ok [b] ∧
      b.m_weights.map WeightedPowerup.m_weight = [2 ^ 64 - 1, 1] ∧
      ¬ List.Pairwise (fun p q => p.m_weight < q.m_weight) b.m_weights) :=
  negative_weight_survives stringUtils "-1 2 0 0 0 0 0 0 0 0" 1 0 "-1" (-1) []
    [⟨2, 1, POWERUP_CAKE⟩] (by decide) (by decide) (by decide) (by decide) (by decide)

/-! ## Loading a class twice -/

theorem loadWeights_ok (su : StringUtils) (root : XMLNode) (class_name : String)
    (st st1 : String → List WeightsData)
    (h : loadWeights su root class_name st = .ok st1) :
    ∃ (node : XMLChild) (raw_data out : List WeightsData),
      root.getNode class_name = some node ∧
      loadRawData su node.weights = .ok raw_data ∧
      postProcessWeightData raw_data [] = .ok out ∧
      st1 = fun key => if key = class_name then st class_name ++ out else st key := by
  unfold loadWeights at h
  split at h
  · exact absurd h (by simp)
  · rename_i node hnode
    split at h
    · exact absurd h (by simp)
    · rename_i raw_data hraw
      rw [postProcessWeightData_append] at h
      cases hout : postProcessWeightData raw_data [] with
      | error e =>
        rw [hout] at h
        exact absurd h (by simp)
      | ok out =>
        rw [hout] at h
        simp only [Except.ok.injEq] at h
        exact ⟨node, raw_data, out, hnode, hraw, hout, h.symm⟩

theorem loadWeights_of (su : StringUtils) (root : XMLNode) (class_name : String)
    (node : XMLChild) (raw_data out : List WeightsData)
    (hnode : root.getNode class_name = some node)
    (hraw : loadRawData su node.weights = .ok raw_data)
    (hout : postProcessWeightData raw_data [] = .ok out)
    (st : String → List WeightsData) :
    loadWeights su root class_name st =
      .ok (fun key => if key = class_name then st class_name ++ out else st key) := by
  unfold loadWeights
  rw [hnode]
  dsimp only
  rw [hraw]
  dsimp only
  rw [postProcessWeightData_append, hout]

theorem not_pairwise_le_append_self (l : List WeightsData) (x y : WeightsData)
    (hx : x ∈ l) (hy : y ∈ l) (hne : x.m_distance ≠ y.m_distance) :
    ¬ List.Pairwise (fun a b => a.m_distance ≤ b.m_distance) (l ++ l) := by
  intro hp
  have hall := (List.pairwise_append.mp hp).2.2
  exact hne (le_antisymm (hall x hx y hy) (hall y hy x hx))

theorem not_pairwise_lt_append_self (l : List WeightsData) (hl : l ≠ []) :
    ¬ List.Pairwise (fun a b => a.m_distance < b.m_distance) (l ++ l) := by
  intro hp
  obtain ⟨x, xs, rfl⟩ := List.exists_cons_of_ne_nil hl
  have hall := (List.pairwise_append.mp hp).2.2
  exact lt_irrefl _ (hall x (List.mem_cons_self _ _) x (List.mem_cons_self _ _))

/-- C19, counterexample: the class of `closeConfig` has two buckets with the
different thresholds 0 and 1/2; after one load the stored thresholds are 0
and 0, after a second load they are 0, 0, 0 and 0: the stored table is in
ascending order after the reload as it was before (and in strictly ascending
order neither before nor after). For a class without bucket the table is
empty after one load and after two: this reload changes nothing. -/
theorem reload_keeps_equal_thresholds_ascending :
    ((closeConfig.getNode "race-weight-list").map (fun c => c.weights.map (fun w => w.distance))
      = some [0, mkRat 1 2] ∧ (0 : ℚ) ≠ mkRat 1 2) ∧
    ∃ st1 st2 : String → List WeightsData,
      loadWeights stringUtils closeConfig "race-weight-list" emptyWeights = .ok st1 ∧
      loadWeights stringUtils closeConfig "race-weight-list" st1 = .ok st2 ∧
      (st1 "race-weight-list").map WeightsData.m_distance = [0, 0] ∧
      (st2 "race-weight-list").map WeightsData.m_distance = [0, 0, 0, 0] ∧
      List.Pairwise (fun a b => a.m_distance ≤ b.m_distance) (st1 "race-weight-list") ∧
      List.Pairwise (fun a b => a.m_distance ≤ b.m_distance) (st2 "race-weight-list") ∧
      ¬ List.Pairwise (fun a b => a.m_distance < b.m_distance) (st1 "race-weight-list") ∧
      ∃ e1 e2 : String → List WeightsData,
        loadWeights stringUtils emptyClassConfig "race-weight-list" emptyWeights = .ok e1 ∧
        loadWeights stringUtils emptyClassConfig "race-weight-list" e1 = .ok e2 ∧
        e1 "race-weight-list" = [] ∧ e2 "race-weight-list" = [] :=
  ⟨⟨by decide, by decide⟩, _, _,
    loadWeights_of stringUtils closeConfig "race-weight-list"
      { name := "race-weight-list", attr_name := "",
        weights :=
          [ { distance := 0, single := "10 0 5 0 0 0 0 0 0 0", multi := "0 0 0 0 0 0 0 0 0 0" },
            { distance := mkRat 1 2, single := "10 0 5", multi := "0 0 0" } ] }
      closeRawBuckets [sampleBucket, sampleBucket]
      (by decide) (by decide) (by decide) emptyWeights,
    loadWeights_of stringUtils closeConfig "race-weight-list"
      { name := "race-weight-list", attr_name := "",
        weights :=
          [ { distance := 0, single := "10 0 5 0 0 0 0 0 0 0", multi := "0 0 0 0 0 0 0 0 0 0" },
            { distance := mkRat 1 2, single := "10 0 5", multi := "0 0 0" } ] }
      closeRawBuckets [sampleBucket, sampleBucket]
      (by decide) (by decide) (by decide) _,
    by decide, by decide, by decide, by decide, by decide, _, _,
    loadWeights_of stringUtils emptyClassConfig "race-weight-list"
      { name := "race-weight-list", attr_name := "", weights := [] } [] []
      (by decide) (by decide) (by decide) emptyWeights,
    loadWeights_of stringUtils emptyClassConfig "race-weight-list"
      { name := "race-weight-list", attr_name := "", weights := [] } [] []
      (by decide) (by decide) (by decide) _,
    by decide, by decide⟩

/-- C19, amended: `loadWeights` appends to the table stored for the class.
After a first load into an empty table, a second load from the same
configuration succeeds and leaves the built buckets twice, one copy after the
other: the length is doubled, the table has changed when it is not empty, it
is not in ascending order of thresholds when two built buckets have different
thresholds, and never in strictly ascending order when it is not empty. -/
theorem loadWeights_appends (su : StringUtils) (root : XMLNode) (class_name : String)
    (st st1 : String → List WeightsData)
    (hempty : st class_name = [])
    (hload : loadWeights su root class_name st = .ok st1) :
    ∃ st2 : String → List WeightsData,
      loadWeights su root class_name st1 = .ok st2 ∧
      st2 class_name = st1 class_name ++ st1 class_name ∧
      (st2 class_name).length = 2 * (st1 class_name).length ∧
      (st1 class_name ≠ [] → st2 class_name ≠ st1 class_name) ∧
      ((∃ x ∈ st1 class_name, ∃ y ∈ st1 class_name, x.m_distance ≠ y.m_distance) →
        ¬ List.Pairwise (fun a b => a.m_distance ≤ b.m_distance) (st2 class_name)) ∧
      (st1 class_name ≠ [] →
        ¬ List.Pairwise (fun a b => a.m_distance < b.m_distance) (st2 class_name)) := by
  obtain ⟨node, raw_data, out, hnode, hraw, hout, hst1⟩ :=
    loadWeights_ok su root class_name st st1 hload
  have h1 : st1 class_name = out := by
    rw [hst1]
    simp [hempty]
  refine ⟨_, loadWeights_of su root class_name node raw_data out hnode hraw hout st1, ?_⟩
  simp only [if_true]
  rw [← h1]
  refine ⟨rfl, ?_, ?_, ?_, ?_⟩
  · rw [List.length_append]
    omega
  · intro hne heq
    have hlen := congrArg List.length heq
    rw [List.length_append] at hlen
    have : (st1 class_name).length = 0 := by omega
    exact hne (List.length_eq_zero.mp this)
  · rintro ⟨x, hx, y, hy, hxy⟩
    exact not_pairwise_le_append_self _ x y hx hy hxy
  · intro hne
    exact not_pairwise_lt_append_self _ hne

/-- Witness of the amended C19: the class `race-weight-list` of `sampleConfig`
loaded into the empty map. -/
theorem loadWeights_appends_witness :
    ∃ st2 : String → List WeightsData,
      loadWeights stringUtils sampleConfig "race-weight-list"
        (fun key => if key = "race-weight-list" then emptyWeights "race-weight-list" ++ [sampleBucket]
          else emptyWeights key) = .ok st2 ∧
      st2 "race-weight-list" = [sampleBucket] ++ [sampleBucket] ∧
      (st2 "race-weight-list").length = 2 * [sampleBucket].length ∧
      ([sampleBucket] ≠ [] → st2 "race-weight-list" ≠ [sampleBucket]) ∧
      ((∃ x ∈ [sampleBucket], ∃ y ∈ [sampleBucket], x.m_distance ≠ y.m_distance) →
        ¬ List.Pairwise (fun a b => a.m_distance ≤ b.m_distance) (st2 "race-weight-list")) ∧
      ([sampleBucket] ≠ [] →
        ¬ List.Pairwise (fun a b => a.m_distance < b.m_distance) (st2 "race-weight-list")) :=
  loadWeights_appends stringUtils sampleConfig "race-weight-list" emptyWeights _ rfl
    (loadWeights_of stringUtils sampleConfig "race-weight-list"
      { name := "race-weight-list", attr_name := "",
        weights := [ { distance := 0, single := "10 0 5 0 0 0 0 0 0 0",
                       multi := "0 0 0 0 0 0 0 0 0 0" } ] }
      [⟨0, sampleRawEntries, 10⟩] [sampleBucket]
      (by decide) (by decide) (by decide) emptyWeights)

/-! ## The table of the follow-the-leader mode -/

theorem loadWeights_other_key (su : StringUtils) (root : XMLNode) (class_name : String)
    (st st1 : String → List WeightsData)
    (h : loadWeights su root class_name st = .ok st1) (key : String) (hkey : key ≠ class_name) :
    st1 key = st key := by
  obtain ⟨_, _, _, _, _, _, hst1⟩ := loadWeights_ok su root class_name st st1 h
  rw [hst1]
  simp [hkey]

theorem loadPowerupsModels_other_key (su : StringUtils) (root : XMLNode)
    (st0 st : String → List WeightsData)
    (h : loadPowerupsModels su root st0 = .ok st) (key : String)
    (h1 : key ≠ "race-weight-list") (h2 : key ≠ "battle-weight-list")
    (h3 : key ≠ "soccer-weight-list") (h4 : key ≠ "tutorial-weight-list") :
    st key = st0 key := by
  unfold loadPowerupsModels at h
  split at h
  · exact absurd h (by simp)
  · split at h
    · exact absurd h (by simp)
    · rename_i w1 hw1
      split at h
      · exact absurd h (by simp)
      · rename_i w2 hw2
        split at h
        · exact absurd h (by simp)
        · rename_i w3 hw3
          rw [loadWeights_other_key su root _ w3 st h key h4,
            loadWeights_other_key su root _ w2 w3 hw3 key h3,
            loadWeights_other_key su root _ w1 w2 hw2 key h2,
            loadWeights_other_key su root _ st0 w1 hw1 key h1]

/-- C20: `loadPowerupsModels` changes the tables of the four classes
`race-weight-list`, `battle-weight-list`, `soccer-weight-list` and
`tutorial-weight-list` only. The follow-the-leader mode selects the class
`ftl-weight-list`; when that class had no table before the load, the active
table selected for this mode is empty and `getRandomPowerup` fails its
no-match assertion for every distance and random value. -/
theorem follow_leader_has_no_table (su : StringUtils) (root : XMLNode)
    (st0 st : String → List WeightsData) (distance : ℚ) (r : Nat)
    (hload : loadPowerupsModels su root st0 = .ok st)
    (h0 : st0 "ftl-weight-list" = []) :
    (∀ key : String, key ≠ "race-weight-list" → key ≠ "battle-weight-list" →
      key ≠ "soccer-weight-list" → key ≠ "tutorial-weight-list" → st key = st0 key) ∧
    selectWeights_class_name MINOR_MODE_FOLLOW_LEADER = some "ftl" ∧
    selectWeightsForCurMode MINOR_MODE_FOLLOW_LEADER st = .ok [] ∧
    ∀ table : List WeightsData,
      selectWeightsForCurMode MINOR_MODE_FOLLOW_LEADER st = .ok table →
      getRandomPowerup table distance r = .error Fault.noBucketFound := by
  have hother := loadPowerupsModels_other_key su root st0 st hload
  have hftl : st "ftl-weight-list" = [] := by
    rw [hother "ftl-weight-list" (by decide) (by decide) (by decide) (by decide)]
    exact h0
  have hsel : selectWeightsForCurMode MINOR_MODE_FOLLOW_LEADER st = .ok [] := by
    have happ : "ftl" ++ "-weight-list" = "ftl-weight-list" := by decide
    simp only [selectWeightsForCurMode, selectWeights_class_name, happ, hftl]
  refine ⟨hother, rfl, hsel, ?_⟩
  intro table htable
  rw [hsel] at htable
  simp only [Except.ok.injEq] at htable
  subst htable
  rfl

/-- Witness of C20: the configuration `sampleConfig` loaded into the empty map
of a new manager, a query at distance 0 with the random value 7. -/
theorem follow_leader_has_no_table_witness :
    (∀ key : String, key ≠ "race-weight-list" → key ≠ "battle-weight-list" →
      key ≠ "soccer-weight-list" → key ≠ "tutorial-weight-list" →
      sampleLoaded key = emptyWeights key) ∧
    selectWeights_class_name MINOR_MODE_FOLLOW_LEADER = some "ftl" ∧
    selectWeightsForCurMode MINOR_MODE_FOLLOW_LEADER sampleLoaded = .ok [] ∧
    ∀ table : List WeightsData,
      selectWeightsForCurMode MINOR_MODE_FOLLOW_LEADER sampleLoaded = .ok table →
      getRandomPowerup table 0 7 = .error Fault.noBucketFound :=
  follow_leader_has_no_table stringUtils sampleConfig emptyWeights sampleLoaded 0 7 rfl rfl

end PowerupManager
